import Mathlib

/-!
# Load controllers of `cpu-ram/benchmark`

A shallow embedding of `benchmark/cpu.go` and `benchmark/memory.go`, and of the
two activation handlers of `handlers/handlers.go`.

* The package-level variables of each file become the fields of a state record.
* Every function whose body runs under the controller mutex becomes a function
  on that record: the mutex serialises these bodies, so each one is a single
  atomic transition.
* The goroutines started by the controllers (`startCPUTask`, its workers,
  `startMemoryTask`) become records with a program position, and each stretch
  of their code between two scheduling points becomes a transition.
* An execution is a list of events (API calls and goroutine transitions); the
  function `cpuRun` / `memRun` replays such a list and fails on an event that
  is not enabled.

Go's `int` is the 64-bit integer.  Values of that type are modelled by `Int`;
the one arithmetic expression on them, `len(memoryBlocks) * blockSize /
(1024 * 1024)`, is computed with the wrap-around of the product and the
truncation of the quotient.  A panic or a fatal error of the runtime in a
goroutine ends the process: the memory controller records it in the field
`crashed`, and a crashed process takes no further step.

Output written with `fmt.Printf`, the tickers' status reports, the result
channel of the CPU workers and the garbage-collector hints of `freeMemory`
change none of the modelled variables and are left out.
-/

namespace Benchmark

/-! ## CPU controller: state -/

/-- Position of a worker goroutine (closure `worker` in `startCPUTask`):
at the `select` of its outer loop, inside `performCPUIntensiveMath`, or returned. -/
inductive WorkerPc where
  | select
  | math
  | exited
  deriving DecidableEq, Repr

/-- A worker goroutine together with its own stop channel `workerStopChans[i]`
(buffered, capacity 1): the number of buffered values and whether it is closed. -/
structure Worker where
  stopChan : Nat
  closed : Bool
  pc : WorkerPc
  deriving DecidableEq, Repr

/-- Position of a `startCPUTask` goroutine: not yet past line 89, past the
store of `numCoresUsed` and before the workers are started, in the main
control loop, or returned. -/
inductive TaskPc where
  | entry
  | spawn
  | loop
  | exited
  deriving DecidableEq, Repr

/-- A `startCPUTask` goroutine: its local `coreCount` (the argument, clamped
once lines 76–84 have run), its position and the workers it has started. -/
structure CpuTask where
  coreCount : Int
  pc : TaskPc
  workers : List Worker
  deriving DecidableEq, Repr

/-- The package-level variables of `cpu.go`, the goroutines started so far and
the number of `StopTask` callers blocked in `cpuTaskWg.Wait()`.
`cpuTaskChan` is the number of values buffered in the channel the variable
currently refers to (capacity 1). -/
structure CpuState where
  cpuTaskRunning : Bool
  cpuTaskChan : Nat
  cpuTaskWg : Nat
  numCoresUsed : Int
  tasks : List CpuTask
  stopWaiters : Nat
  deriving DecidableEq, Repr

/-- The state after `init()`. -/
def cpuInit : CpuState :=
  { cpuTaskRunning := false, cpuTaskChan := 0, cpuTaskWg := 0, numCoresUsed := 0,
    tasks := [], stopWaiters := 0 }

/-! ## CPU controller: API (bodies guarded by `cpuTaskMutex`) -/

/-- Function `StartTaskWithCores(cores)`, lines 162–191; `numCPU` is
`runtime.NumCPU()`. -/
def StartTaskWithCores (numCPU : Int) (cores : Int) (s : CpuState) : Bool × CpuState :=
  if s.cpuTaskRunning then
    (false, s)
  else
    let numCoresUsed :=
      if cores ≤ 0 then numCPU
      else
        let availableCores := numCPU
        if cores > availableCores then availableCores else cores
    (true,
      { s with
        cpuTaskChan := 0
        numCoresUsed := numCoresUsed
        cpuTaskRunning := true
        cpuTaskWg := s.cpuTaskWg + 1
        tasks := s.tasks ++ [{ coreCount := cores, pc := .entry, workers := [] }] })

/-- Function `StartTask()`. -/
def StartTask (numCPU : Int) (s : CpuState) : Bool × CpuState :=
  StartTaskWithCores numCPU 0 s

/-- Function `StopTask()`, lines 202–225.  The result `false` is returned at
once.  With the result `true` the caller goes on to `cpuTaskWg.Wait()` and returns `true`
when the wait ends (event `stopReturn` below). -/
def StopTask (s : CpuState) : Bool × CpuState :=
  if !s.cpuTaskRunning then
    (false, s)
  else
    (true,
      { s with
        cpuTaskChan := if s.cpuTaskChan < 1 then s.cpuTaskChan + 1 else s.cpuTaskChan
        cpuTaskRunning := false
        numCoresUsed := 0
        stopWaiters := s.stopWaiters + 1 })

/-- Function `IsTaskRunning()`. -/
def IsTaskRunning (s : CpuState) : Bool := s.cpuTaskRunning

/-- Function `GetCPUCoresUsed()`. -/
def GetCPUCoresUsed (s : CpuState) : Int := s.numCoresUsed

/-! ## CPU controller: goroutines -/

/-- Lines 76–84 of `startCPUTask`: the core count the task works with. -/
def clampCoreCount (numCPU : Int) (coreCount : Int) : Int :=
  let coreCount := if coreCount ≤ 0 then numCPU else coreCount
  let availableCores := numCPU
  if coreCount > availableCores then availableCores else coreCount

/-- Lines 73–89 of `startCPUTask`: clamp the argument and store it in
`numCoresUsed` under the mutex. -/
def taskRecord (numCPU : Int) (s : CpuState) (i : Nat) (t : CpuTask) : CpuState :=
  let coreCount := clampCoreCount numCPU t.coreCount
  { s with
    numCoresUsed := coreCount
    tasks := s.tasks.set i { t with coreCount := coreCount, pc := .spawn } }

/-- Lines 119–124 of `startCPUTask`: one worker with a fresh stop channel for
every `i < coreCount`. -/
def taskSpawn (s : CpuState) (i : Nat) (t : CpuTask) : CpuState :=
  let workers := (List.range t.coreCount.toNat).map
    fun _ => ({ stopChan := 0, closed := false, pc := .select } : Worker)
  { s with tasks := s.tasks.set i { t with workers := workers, pc := .loop } }

/-- Lines 137–138: `stopChan <- true; close(stopChan)` on a worker's channel. -/
def signalWorker (w : Worker) : Worker :=
  { w with stopChan := w.stopChan + 1, closed := true }

/-- The `case <-cpuTaskChan` branch of the main control loop, lines 131–142,
followed by the deferred `cpuTaskWg.Done()`. -/
def taskStop (s : CpuState) (i : Nat) (t : CpuTask) : CpuState :=
  { s with
    cpuTaskChan := s.cpuTaskChan - 1
    cpuTaskWg := s.cpuTaskWg - 1
    tasks := s.tasks.set i { t with workers := t.workers.map signalWorker, pc := .exited } }

/-- One check of the stop channel by a worker.  A receive succeeds when a value
is buffered or the channel is closed.  At the outer `select` (line 104) the
worker returns on success and calls `performCPUIntensiveMath` otherwise; inside
`performCPUIntensiveMath` (lines 41, 61) it returns to the outer loop on
success and keeps computing otherwise. -/
def workerPoll (w : Worker) : Worker :=
  let ready := decide (0 < w.stopChan) || w.closed
  match w.pc with
  | .select =>
    if ready then { w with stopChan := w.stopChan - 1, pc := .exited }
    else { w with pc := .math }
  | .math =>
    if ready then { w with stopChan := w.stopChan - 1, pc := .select }
    else w
  | .exited => w

/-! ## CPU controller: executions -/

/-- The scheduling events of the CPU controller. -/
inductive CpuEvent where
  /-- A caller runs `StartTaskWithCores(cores)` to its return. -/
  | callStart (cores : Int)
  /-- A caller runs `StopTask()` up to `cpuTaskWg.Wait()`. -/
  | callStop
  /-- The wait of a blocked `StopTask` caller ends; the call returns `true`. -/
  | stopReturn
  /-- Task `i` runs lines 73–89. -/
  | taskRecord (i : Nat)
  /-- Task `i` starts its workers. -/
  | taskSpawn (i : Nat)
  /-- Task `i` receives from `cpuTaskChan` and returns. -/
  | taskStop (i : Nat)
  /-- Worker `j` of task `i` checks its stop channel. -/
  | workerPoll (i j : Nat)
  deriving DecidableEq, Repr

/-- One event: the next state and the value returned by an API call that
completes with this event; `none` when the event is not enabled. -/
def cpuStep (numCPU : Int) (s : CpuState) : CpuEvent → Option (CpuState × Option Bool)
  | .callStart cores =>
    let r := StartTaskWithCores numCPU cores s
    some (r.2, some r.1)
  | .callStop =>
    let r := StopTask s
    some (r.2, if r.1 then none else some false)
  | .stopReturn =>
    if 0 < s.stopWaiters ∧ s.cpuTaskWg = 0 then
      some ({ s with stopWaiters := s.stopWaiters - 1 }, some true)
    else none
  | .taskRecord i =>
    match s.tasks[i]? with
    | some t => if t.pc = .entry then some (taskRecord numCPU s i t, none) else none
    | none => none
  | .taskSpawn i =>
    match s.tasks[i]? with
    | some t => if t.pc = .spawn then some (taskSpawn s i t, none) else none
    | none => none
  | .taskStop i =>
    match s.tasks[i]? with
    | some t =>
      if t.pc = .loop ∧ 0 < s.cpuTaskChan then some (taskStop s i t, none) else none
    | none => none
  | .workerPoll i j =>
    match s.tasks[i]? with
    | some t =>
      match t.workers[j]? with
      | some w =>
        if w.pc = .exited then none
        else
          some ({ s with
                  tasks := s.tasks.set i { t with workers := t.workers.set j (workerPoll w) } },
                none)
      | none => none
    | none => none

/-- Replay a list of events; the second component collects the values returned
by the API calls, in the order in which the calls return. -/
def cpuRun (numCPU : Int) (s : CpuState) : List CpuEvent → Option (CpuState × List Bool)
  | [] => some (s, [])
  | e :: es =>
    match cpuStep numCPU s e with
    | none => none
    | some (s1, r) =>
      match cpuRun numCPU s1 es with
      | none => none
      | some (s2, rs) => some (s2, r.toList ++ rs)

/-! ## Memory controller: state -/

/-- Constant `blockSize`: 10MB per block. -/
def blockSize : Nat := 10 * 1024 * 1024

/-- Constant `defaultMaxMemoryMB`. -/
def defaultMaxMemoryMB : Int := 1024

/-- A byte slice held in `memoryBlocks`, represented by its length; the bytes
themselves are written once and never read. -/
abbrev Block := Nat

/-- Position of a `startMemoryTask` goroutine: before line 115, in the main
control loop, or returned. -/
inductive MemPc where
  | entry
  | loop
  | exited
  deriving DecidableEq, Repr

/-- A `startMemoryTask` goroutine: its position, its locals `memoryLimit` and
`allocatedMB`, and whether it has called `allocTicker.Stop()`. -/
structure MemTask where
  pc : MemPc
  memoryLimit : Int
  allocatedMB : Int
  allocTickerStopped : Bool
  deriving DecidableEq, Repr

/-- The package-level variables of `memory.go`, the goroutines started so far,
the number of `StopMemoryTask` callers blocked in `memoryTaskWg.Wait()`, and
whether the process has died of a panic or a fatal error in a goroutine.
`memoryBlocks` is `none` for the nil slice.  `memoryTaskChan` is the number of
values buffered in the channel the variable currently refers to (capacity 1). -/
structure MemState where
  memoryTaskRunning : Bool
  memoryTaskChan : Nat
  memoryTaskWg : Nat
  memoryBlocks : Option (List Block)
  maxMemoryMB : Int
  tasks : List MemTask
  stopWaiters : Nat
  crashed : Bool
  deriving DecidableEq, Repr

/-- The state after `init()`. -/
def memInit : MemState :=
  { memoryTaskRunning := false, memoryTaskChan := 0, memoryTaskWg := 0, memoryBlocks := none,
    maxMemoryMB := defaultMaxMemoryMB, tasks := [], stopWaiters := 0, crashed := false }

/-- The value of an arithmetic result in Go's 64-bit `int`: wrapped around into
the range from `-2^63` to `2^63 - 1`. -/
def wrapInt (x : Int) : Int :=
  (x + 2 ^ 63) % 2 ^ 64 - 2 ^ 63

/-- Expression `n * blockSize / (1024 * 1024)` for `n = len(memoryBlocks)` in
Go's `int`: the product wraps around and the quotient is truncated. -/
def mbOfBlocks (n : Nat) : Int :=
  Int.tdiv (wrapInt ((n : Int) * (blockSize : Int))) (1024 * 1024)

/-- Constant `maxAlloc` of the Go runtime on 64-bit Linux: the largest size of
one allocation. -/
def maxAlloc : Int := 2 ^ 48

/-- The size in bytes of an element of `[][]byte`, a slice header. -/
def sliceHeaderSize : Int := 24

/-- Whether `make([][]byte, 0, cap)` passes the check of the runtime
(`makeslice`); otherwise it panics with `cap out of range`. -/
def makeSliceOk (cap : Int) : Bool :=
  decide (0 ≤ cap ∧ sliceHeaderSize * cap ≤ maxAlloc)

/-- Expression `memoryLimit/(blockSize/(1024*1024))` of line 99, the capacity of
the block slice. -/
def blocksCap (memoryLimit : Int) : Int :=
  Int.tdiv memoryLimit ((blockSize / (1024 * 1024) : Nat) : Int)

/-- Expression `len(memoryBlocks)`: the nil slice has length 0. -/
def lenBlocks (s : MemState) : Nat :=
  match s.memoryBlocks with
  | none => 0
  | some bs => bs.length

/-- The blocks held, as a list: the nil slice holds none. -/
def blocksOf (s : MemState) : List Block :=
  match s.memoryBlocks with
  | none => []
  | some bs => bs

/-! ## Memory controller: API -/

/-- Function `SetMaxMemoryMB(mbLimit)`: the limit that was set and the new
state. -/
def SetMaxMemoryMB (mbLimit : Int) (s : MemState) : Int × MemState :=
  let maxMemoryMB := if mbLimit ≤ 0 then defaultMaxMemoryMB else mbLimit
  (maxMemoryMB, { s with maxMemoryMB := maxMemoryMB })

/-- Function `GetMaxMemoryMB()`. -/
def GetMaxMemoryMB (s : MemState) : Int := s.maxMemoryMB

/-- Function `freeMemory()`: `memoryBlocks = nil`. -/
def freeMemory (s : MemState) : MemState :=
  { s with memoryBlocks := none }

/-- Function `FreeAllMemory()`. -/
def FreeAllMemory (s : MemState) : MemState := freeMemory s

/-- Function `StartMemoryTaskWithLimit(mbLimit)`, lines 172–196. -/
def StartMemoryTaskWithLimit (mbLimit : Int) (s : MemState) : Bool × MemState :=
  if s.memoryTaskRunning then
    (false, s)
  else
    let maxMemoryMB := if mbLimit > 0 then mbLimit else defaultMaxMemoryMB
    (true,
      { s with
        maxMemoryMB := maxMemoryMB
        memoryTaskChan := 0
        memoryTaskRunning := true
        memoryTaskWg := s.memoryTaskWg + 1
        tasks := s.tasks ++
          [{ pc := .entry, memoryLimit := 0, allocatedMB := 0, allocTickerStopped := false }] })

/-- Function `StartMemoryTask()`. -/
def StartMemoryTask (s : MemState) : Bool × MemState :=
  StartMemoryTaskWithLimit defaultMaxMemoryMB s

/-- Function `StopMemoryTask()`, lines 200–219.  The result `false` is returned
at once.  With the result `true` the caller goes on to `memoryTaskWg.Wait()` and returns
`true` when the wait ends (event `stopReturn` below). -/
def StopMemoryTask (s : MemState) : Bool × MemState :=
  if !s.memoryTaskRunning then
    (false, s)
  else
    (true,
      { s with
        memoryTaskChan := if s.memoryTaskChan < 1 then s.memoryTaskChan + 1 else s.memoryTaskChan
        memoryTaskRunning := false
        stopWaiters := s.stopWaiters + 1 })

/-- Function `IsMemoryTaskRunning()`. -/
def IsMemoryTaskRunning (s : MemState) : Bool := s.memoryTaskRunning

/-- Function `GetAllocatedMemoryMB()`. -/
def GetAllocatedMemoryMB (s : MemState) : Int :=
  match s.memoryBlocks with
  | none => 0
  | some bs => mbOfBlocks bs.length

/-! ## Memory controller: goroutine -/

/-- Lines 86–115 of `startMemoryTask`: read the limit, make the block slice if
it is nil, and start counting from what is already held.  The `make` of line
99 panics when its capacity `memoryLimit / 10` is out of range, which ends the
process. -/
def memEntry (s : MemState) (i : Nat) (t : MemTask) : MemState :=
  let memoryLimit := s.maxMemoryMB
  if s.memoryBlocks = none ∧ makeSliceOk (blocksCap memoryLimit) = false then
    { s with crashed := true }
  else
    let memoryBlocks : List Block :=
      match s.memoryBlocks with
      | none => []
      | some bs => bs
    let currentAllocation : Int :=
      if memoryBlocks.length > 0 then mbOfBlocks memoryBlocks.length else 0
    { s with
      memoryBlocks := some memoryBlocks
      tasks := s.tasks.set i
        { t with pc := .loop, memoryLimit := memoryLimit, allocatedMB := currentAllocation } }

/-- The `case <-memoryTaskChan` branch, lines 120–124, followed by the deferred
`memoryTaskWg.Done()`: the task returns and frees nothing. -/
def memStop (s : MemState) (i : Nat) (t : MemTask) : MemState :=
  { s with
    memoryTaskChan := s.memoryTaskChan - 1
    memoryTaskWg := s.memoryTaskWg - 1
    tasks := s.tasks.set i { t with pc := .exited } }

/-- The `case <-allocTicker.C` branch, lines 126–148.  The report of line 147
divides by `memoryLimit` and panics when that is 0. -/
def memAllocTick (s : MemState) (i : Nat) (t : MemTask) : MemState :=
  if t.allocatedMB ≥ t.memoryLimit then
    { s with tasks := s.tasks.set i { t with allocTickerStopped := true } }
  else
    let newBlock : Block := blockSize
    let memoryBlocks : List Block :=
      (match s.memoryBlocks with
       | none => []
       | some bs => bs) ++ [newBlock]
    let currentBlocks := memoryBlocks.length
    let allocatedMB : Int := mbOfBlocks currentBlocks
    { s with
      memoryBlocks := some memoryBlocks
      tasks := s.tasks.set i { t with allocatedMB := allocatedMB }
      crashed := decide (t.memoryLimit = 0) }

/-- The `case <-statusTicker.C` branch, lines 150–158.  The report of line 157
divides by `memoryLimit` and panics when that is 0. -/
def memStatusTick (s : MemState) (i : Nat) (t : MemTask) : MemState :=
  let currentBlocks := lenBlocks s
  let allocatedMB : Int := mbOfBlocks currentBlocks
  { s with
    tasks := s.tasks.set i { t with allocatedMB := allocatedMB }
    crashed := decide (t.memoryLimit = 0) }

/-! ## Memory controller: executions -/

/-- The scheduling events of the memory controller.  A tick that was already
buffered is still delivered after `allocTicker.Stop()`, so `taskAllocTick` is
enabled whenever the task is in its loop. -/
inductive MemEvent where
  /-- A caller runs `StartMemoryTaskWithLimit(mbLimit)` to its return. -/
  | callStart (mbLimit : Int)
  /-- A caller runs `StopMemoryTask()` up to `memoryTaskWg.Wait()`. -/
  | callStop
  /-- The wait of a blocked `StopMemoryTask` caller ends; the call returns `true`. -/
  | stopReturn
  /-- A caller runs `FreeAllMemory()`. -/
  | callFree
  /-- Task `i` runs lines 86–115. -/
  | taskEntry (i : Nat)
  /-- Task `i` receives from `memoryTaskChan` and returns. -/
  | taskStop (i : Nat)
  /-- Task `i` receives an allocation tick. -/
  | taskAllocTick (i : Nat)
  /-- Task `i` receives a status tick. -/
  | taskStatusTick (i : Nat)
  /-- The runtime cannot obtain the memory for a `make` of task `i` (line 99 or
  line 138): a fatal error, which ends the process. -/
  | taskOutOfMemory (i : Nat)
  deriving DecidableEq, Repr

/-- One event: the next state and the value returned by a `Start` or `Stop`
call that completes with this event; `none` when the event is not enabled.  No
event is enabled once the process has died. -/
def memStep (s : MemState) (e : MemEvent) : Option (MemState × Option Bool) :=
  if s.crashed then none
  else
    match e with
    | .callStart mbLimit =>
      let r := StartMemoryTaskWithLimit mbLimit s
      some (r.2, some r.1)
    | .callStop =>
      let r := StopMemoryTask s
      some (r.2, if r.1 then none else some false)
    | .stopReturn =>
      if 0 < s.stopWaiters ∧ s.memoryTaskWg = 0 then
        some ({ s with stopWaiters := s.stopWaiters - 1 }, some true)
      else none
    | .callFree => some (FreeAllMemory s, none)
    | .taskEntry i =>
      match s.tasks[i]? with
      | some t => if t.pc = .entry then some (memEntry s i t, none) else none
      | none => none
    | .taskStop i =>
      match s.tasks[i]? with
      | some t =>
        if t.pc = .loop ∧ 0 < s.memoryTaskChan then some (memStop s i t, none) else none
      | none => none
    | .taskAllocTick i =>
      match s.tasks[i]? with
      | some t => if t.pc = .loop then some (memAllocTick s i t, none) else none
      | none => none
    | .taskStatusTick i =>
      match s.tasks[i]? with
      | some t => if t.pc = .loop then some (memStatusTick s i t, none) else none
      | none => none
    | .taskOutOfMemory i =>
      match s.tasks[i]? with
      | some t => if t.pc = .exited then none else some ({ s with crashed := true }, none)
      | none => none

/-- Replay a list of events; the second component collects the values returned
by the `Start` and `Stop` calls, in the order in which the calls return. -/
def memRun (s : MemState) : List MemEvent → Option (MemState × List Bool)
  | [] => some (s, [])
  | e :: es =>
    match memStep s e with
    | none => none
    | some (s1, r) =>
      match memRun s1 es with
      | none => none
      | some (s2, rs) => some (s2, r.toList ++ rs)

/-! ## HTTP handlers (`handlers/handlers.go`)

The handlers read the method and the path of the request, write a status code
and call the controllers.  The two library functions they use are modelled
after their documentation: `regexp.FindStringSubmatch` for the two patterns of
the file, and `strconv.Atoi` for a 64-bit `int`. -/

/-- The part of a request the handlers read: `r.Method` and `r.URL.Path`. -/
structure Request where
  method : String
  path : String
  deriving DecidableEq, Repr

/-- What a handler has done: the status code it has written, and the argument
with which it has called the controller's `Start`, if it has called it. -/
structure Response where
  status : Nat
  started : Option Int
  deriving DecidableEq, Repr

/-- The rest of `s` after the leading `pre`, when `s` begins with `pre`. -/
def dropLeading : List Char → List Char → Option (List Char)
  | [], s => some s
  | _ :: _, [] => none
  | a :: pre, b :: s => if a = b then dropLeading pre s else none

/-- The result of `FindStringSubmatch(path)` for a pattern `^P(?:/(\d+))?$`
whose literal text `P` is `pat`: the whole match followed by the text of the
group, which is empty when the group took no part in the match; the nil slice
when the path does not match.  The class `\d` is the ASCII digits and `$`
matches at the end of the text only. -/
def FindStringSubmatch (pat : List Char) (path : String) : List String :=
  if path.toList = pat then [path, ""]
  else
    match dropLeading (pat ++ ['/']) path.toList with
    | some ds => if ds ≠ [] ∧ ds.all Char.isDigit = true then [path, String.mk ds] else []
    | none => []

/-- Literal text of `cpuActivatePattern`, the pattern `^/cpu/activate(?:/(\d+))?$`. -/
def cpuActivatePattern : List Char := "/cpu/activate".toList

/-- Literal text of `memoryActivatePattern`, the pattern
`^/memory/activate(?:/(\d+))?$`. -/
def memoryActivatePattern : List Char := "/memory/activate".toList

/-- The number written by a string of decimal digits. -/
def decimalValue (ds : List Char) : Nat :=
  ds.foldl (fun n c => 10 * n + (c.toNat - '0'.toNat)) 0

/-- Library function `strconv.Atoi` for a 64-bit `int`: an optional sign followed
by one or more decimal digits; `none` stands for an error, which is returned
for any other text and for a value outside the range of `int`. -/
def Atoi (s : String) : Option Int :=
  let cs := s.toList
  let neg : Bool := decide (cs.head? = some '-')
  let ds := if cs.head? = some '+' ∨ cs.head? = some '-' then cs.tail else cs
  if ds = [] ∨ ¬ ds.all Char.isDigit = true then none
  else
    let n := decimalValue ds
    if neg then (if n ≤ 2 ^ 63 then some (-(n : Int)) else none)
    else (if n ≤ 2 ^ 63 - 1 then some (n : Int) else none)

/-- Function `ActivateHandler`, lines 34–68. -/
def ActivateHandler (numCPU : Int) (r : Request) (s : CpuState) : Response × CpuState :=
  if r.method ≠ "POST" then
    ({ status := 405, started := none }, s)
  else
    let start (cores : Int) : Response × CpuState :=
      let res := StartTaskWithCores numCPU cores s
      if !res.1 then ({ status := 409, started := some cores }, res.2)
      else ({ status := 200, started := some cores }, res.2)
    let cores : Int := 0
    let found := FindStringSubmatch cpuActivatePattern r.path
    if found.length > 1 ∧ found.getD 1 "" ≠ "" then
      match Atoi (found.getD 1 "") with
      | none => ({ status := 400, started := none }, s)
      | some coreCount =>
        if coreCount ≤ 0 then ({ status := 400, started := none }, s)
        else start coreCount
    else start cores

/-- Function `ActivateMemoryHandler`, lines 89–120. -/
def ActivateMemoryHandler (r : Request) (s : MemState) : Response × MemState :=
  if r.method ≠ "POST" then
    ({ status := 405, started := none }, s)
  else
    let start (memoryLimit : Int) : Response × MemState :=
      let res := StartMemoryTaskWithLimit memoryLimit s
      if !res.1 then ({ status := 409, started := some memoryLimit }, res.2)
      else ({ status := 200, started := some memoryLimit }, res.2)
    let memoryLimit : Int := 0
    let found := FindStringSubmatch memoryActivatePattern r.path
    if found.length > 1 ∧ found.getD 1 "" ≠ "" then
      match Atoi (found.getD 1 "") with
      | none => ({ status := 400, started := none }, s)
      | some limit =>
        if limit ≤ 0 then ({ status := 400, started := none }, s)
        else start limit
    else start memoryLimit

/-! ## Schedules, sample states and invariants -/

/-- The schedule on which a `StopMemoryTask()` call runs to its return when the
only live task is task `i` at position `pc`: the locked part of the call, the
task's start-up if it has not run yet, the task's reaction to the stop signal,
and the end of the wait. -/
def stopSchedule (i : Nat) (pc : MemPc) : List MemEvent :=
  MemEvent.callStop ::
    ((match pc with
      | .entry => [MemEvent.taskEntry i]
      | _ => []) ++ [MemEvent.taskStop i, MemEvent.stopReturn])

/-- A state the memory controller reaches: started with limit 50, two blocks
allocated, the task in its loop. -/
def memSample : MemState :=
  { memoryTaskRunning := true, memoryTaskChan := 0, memoryTaskWg := 1,
    memoryBlocks := some [blockSize, blockSize], maxMemoryMB := 50,
    tasks := [{ pc := .loop, memoryLimit := 50, allocatedMB := 20, allocTickerStopped := false }],
    stopWaiters := 0, crashed := false }

/-- The two tickers of `startMemoryTask`. -/
inductive Tick where
  | alloc
  | status
  deriving DecidableEq, Repr

/-- The event by which task `i` receives a tick. -/
def tickEvent (i : Nat) : Tick → MemEvent
  | .alloc => MemEvent.taskAllocTick i
  | .status => MemEvent.taskStatusTick i

/-- The events that are steps of goroutines, as opposed to API calls. -/
def CpuEvent.isGoroutine : CpuEvent → Bool
  | .taskRecord _ => true
  | .taskSpawn _ => true
  | .taskStop _ => true
  | .workerPoll _ _ => true
  | _ => false

/-- An idle CPU controller: the running flag is off and every `startCPUTask`
goroutine started so far has returned. -/
def cpuIdle (s : CpuState) : Prop :=
  s.cpuTaskRunning = false ∧ ∀ t ∈ s.tasks, t.pc = TaskPc.exited

/-- The state of affairs after a `StartTaskWithCores(a)` that won on an idle
controller, as long as no `StopTask` is called: the flag is on, the stop
channel is empty, the recorded count is the clamped `a`, and every task that
has not returned works with that count. -/
def cpuStarted (numCPU a : Int) (s : CpuState) : Prop :=
  s.cpuTaskRunning = true ∧ s.cpuTaskChan = 0 ∧
  s.numCoresUsed = clampCoreCount numCPU a ∧
  ∀ t ∈ s.tasks, t.pc = TaskPc.exited ∨
    clampCoreCount numCPU t.coreCount = clampCoreCount numCPU a

/-- Whether a `startCPUTask` goroutine has not returned yet. -/
def taskLive (t : CpuTask) : Bool :=
  decide (t.pc ≠ TaskPc.exited)

/-- The number of `startCPUTask` goroutines that have not returned. -/
def liveTasks (s : CpuState) : Nat :=
  s.tasks.countP taskLive

/-- A state the CPU controller reaches on a host with 4 cores: started with 2
cores, the task in its loop with two workers. -/
def cpuSample : CpuState :=
  { cpuTaskRunning := true, cpuTaskChan := 0, cpuTaskWg := 1, numCoresUsed := 2,
    tasks := [{ coreCount := 2, pc := .loop,
                workers := [{ stopChan := 0, closed := false, pc := .select },
                            { stopChan := 0, closed := false, pc := .select }] }],
    stopWaiters := 0 }

/-- What holds in every state of every execution: the wait group counts at
least the tasks that have not returned, and every worker of a task that has
returned has had its stop channel closed. -/
def cpuInv (s : CpuState) : Prop :=
  liveTasks s ≤ s.cpuTaskWg ∧
  ∀ t ∈ s.tasks, t.pc = TaskPc.exited → ∀ w ∈ t.workers, w.closed = true

/-- A state the CPU controller reaches on a host with one core: the task has
forwarded the stop signal and returned, the `StopTask` caller is still in the
wait, and the worker is inside `performCPUIntensiveMath`. -/
def cpuStopping : CpuState :=
  { cpuTaskRunning := false, cpuTaskChan := 0, cpuTaskWg := 0, numCoresUsed := 0,
    tasks := [{ coreCount := 1, pc := .exited,
                workers := [{ stopChan := 1, closed := true, pc := .math }] }],
    stopWaiters := 1 }

/-- The steps of a `StopMemoryTask()` call and the steps of a task other than
an allocation tick. -/
def MemEvent.keepsBlocks : MemEvent → Bool
  | .callStop => true
  | .stopReturn => true
  | .taskEntry _ => true
  | .taskStop _ => true
  | .taskStatusTick _ => true
  | .taskOutOfMemory _ => true
  | _ => false

/-- The events that are calls of the API, as opposed to steps of a task and
ends of a wait. -/
def MemEvent.isApiCall : MemEvent → Bool
  | .callStart _ => true
  | .callStop => true
  | .callFree => true
  | _ => false

/-- The schedule on which a `StopTask()` call runs to its return when the only
live task is task `i`, which has already stored its core count: the locked part
of the call, the start of the workers if that is still to come, the task's
reaction to the stop signal, and the end of the wait. -/
def cpuStopSchedule (i : Nat) (pc : TaskPc) : List CpuEvent :=
  CpuEvent.callStop ::
    ((match pc with
      | .spawn => [CpuEvent.taskSpawn i]
      | _ => []) ++ [CpuEvent.taskStop i, CpuEvent.stopReturn])

/-! ## Controller contracts -/

/-- C1: in both controllers `Start` returns `false` exactly when the task is
running, `Stop` returns `false` exactly when it is not, and a call that returns
`false` leaves the whole controller state as it was. -/
theorem start_stop_false_iff_and_noop (numCPU cores mbLimit : Int) (c : CpuState) (m : MemState) :
    (((StartTaskWithCores numCPU cores c).1 = false ↔ c.cpuTaskRunning = true) ∧
      ((StartTaskWithCores numCPU cores c).1 = false → (StartTaskWithCores numCPU cores c).2 = c)) ∧
    (((StopTask c).1 = false ↔ c.cpuTaskRunning = false) ∧
      ((StopTask c).1 = false → (StopTask c).2 = c)) ∧
    (((StartMemoryTaskWithLimit mbLimit m).1 = false ↔ m.memoryTaskRunning = true) ∧
      ((StartMemoryTaskWithLimit mbLimit m).1 = false →
        (StartMemoryTaskWithLimit mbLimit m).2 = m)) ∧
    (((StopMemoryTask m).1 = false ↔ m.memoryTaskRunning = false) ∧
      ((StopMemoryTask m).1 = false → (StopMemoryTask m).2 = m)) := by
  refine ⟨⟨?_, ?_⟩, ⟨?_, ?_⟩, ⟨?_, ?_⟩, ⟨?_, ?_⟩⟩
  · cases h : c.cpuTaskRunning <;> simp [StartTaskWithCores, h]
  · cases h : c.cpuTaskRunning <;> simp [StartTaskWithCores, h]
  · cases h : c.cpuTaskRunning <;> simp [StopTask, h]
  · cases h : c.cpuTaskRunning <;> simp [StopTask, h]
  · cases h : m.memoryTaskRunning <;> simp [StartMemoryTaskWithLimit, h]
  · cases h : m.memoryTaskRunning <;> simp [StartMemoryTaskWithLimit, h]
  · cases h : m.memoryTaskRunning <;> simp [StopMemoryTask, h]
  · cases h : m.memoryTaskRunning <;> simp [StopMemoryTask, h]

/-- C2: on an idle CPU controller `StartTaskWithCores(cores)` returns `true`,
sets the running flag and records `numCPU` cores when `cores ≤ 0` and
`min cores numCPU` otherwise, a count between 1 and `numCPU`. -/
theorem start_records_clamped_cores (numCPU cores : Int) (s : CpuState)
    (havail : 1 ≤ numCPU) (hidle : s.cpuTaskRunning = false) :
    (StartTaskWithCores numCPU cores s).1 = true ∧
    IsTaskRunning (StartTaskWithCores numCPU cores s).2 = true ∧
    GetCPUCoresUsed (StartTaskWithCores numCPU cores s).2 =
      (if cores ≤ 0 then numCPU else min cores numCPU) ∧
    1 ≤ GetCPUCoresUsed (StartTaskWithCores numCPU cores s).2 ∧
    GetCPUCoresUsed (StartTaskWithCores numCPU cores s).2 ≤ numCPU := by
  have hval : GetCPUCoresUsed (StartTaskWithCores numCPU cores s).2 =
      (if cores ≤ 0 then numCPU else min cores numCPU) := by
    simp only [StartTaskWithCores, hidle, GetCPUCoresUsed]
    by_cases h0 : cores ≤ 0
    · simp [h0]
    · by_cases h1 : cores > numCPU
      · simp [h0, h1, min_eq_right (le_of_lt h1)]
      · simp [h0, h1, min_eq_left (not_lt.mp h1)]
  refine ⟨by simp [StartTaskWithCores, hidle], by simp [StartTaskWithCores, hidle, IsTaskRunning],
    hval, ?_, ?_⟩
  · rw [hval]; split <;> omega
  · rw [hval]; split <;> omega

/-- C2 at `cores = 3` on a host with 2 cores, from the initial state. -/
theorem start_records_clamped_cores_witness :
    (StartTaskWithCores 2 3 cpuInit).1 = true ∧
    IsTaskRunning (StartTaskWithCores 2 3 cpuInit).2 = true ∧
    GetCPUCoresUsed (StartTaskWithCores 2 3 cpuInit).2 =
      (if (3 : Int) ≤ 0 then 2 else min 3 2) ∧
    1 ≤ GetCPUCoresUsed (StartTaskWithCores 2 3 cpuInit).2 ∧
    GetCPUCoresUsed (StartTaskWithCores 2 3 cpuInit).2 ≤ 2 :=
  start_records_clamped_cores 2 3 cpuInit (by decide) rfl

/-- C3: on a host with 4 cores, `StartTaskWithCores(2)` followed by `StopTask()`
whose locked part runs before the new task goroutine has reached line 87.  The
wait of `StopTask` ends only after the goroutine has run, and the goroutine
stores its core count after `StopTask` has reset it: both calls return `true`,
the task has returned, `IsTaskRunning()` is `false` and `GetCPUCoresUsed()` is 2. -/
theorem stop_then_late_record_leaves_cores :
    (cpuRun 4 cpuInit
        [.callStart 2, .callStop, .taskRecord 0, .taskSpawn 0, .taskStop 0, .stopReturn]).map
      (fun r => (r.2, IsTaskRunning r.1, GetCPUCoresUsed r.1, r.1.tasks.map (fun t => t.pc))) =
    some ([true, true], false, 2, [TaskPc.exited]) := by
  decide

/-- When the one live task has already stored its core count (it is past line
89), `StopTask()` runs to its return, returns `true`, and afterwards
`IsTaskRunning()` is `false` and `GetCPUCoresUsed()` is 0. -/
theorem stop_after_record_resets_cores (numCPU : Int) (s : CpuState) (i : Nat) (t : CpuTask)
    (hrun : s.cpuTaskRunning = true) (ht : s.tasks[i]? = some t)
    (hpc : t.pc = .spawn ∨ t.pc = .loop) (hwg : s.cpuTaskWg = 1) :
    ∃ s2, cpuRun numCPU s (cpuStopSchedule i t.pc) = some (s2, [true]) ∧
      IsTaskRunning s2 = false ∧ GetCPUCoresUsed s2 = 0 := by
  have hi : i < s.tasks.length := (List.getElem?_eq_some.mp ht).1
  by_cases hch : s.cpuTaskChan = 0
  · rcases hpc with hp | hp
    · simp [cpuStopSchedule, cpuRun, cpuStep, StopTask, hrun, ht, hp, taskSpawn, taskStop,
        hi, hwg, hch, IsTaskRunning, GetCPUCoresUsed]
    · simp [cpuStopSchedule, cpuRun, cpuStep, StopTask, hrun, ht, hp, taskStop,
        hwg, hch, IsTaskRunning, GetCPUCoresUsed]
  · have hpos : 0 < s.cpuTaskChan := Nat.pos_of_ne_zero hch
    rcases hpc with hp | hp
    · simp [cpuStopSchedule, cpuRun, cpuStep, StopTask, hrun, ht, hp, taskSpawn, taskStop,
        hi, hwg, hch, hpos, IsTaskRunning, GetCPUCoresUsed]
    · simp [cpuStopSchedule, cpuRun, cpuStep, StopTask, hrun, ht, hp, taskStop,
        hwg, hch, hpos, IsTaskRunning, GetCPUCoresUsed]

/-- C4: on an idle memory controller `StartMemoryTaskWithLimit(mbLimit)` returns
`true`, sets the running flag, sets the limit to `mbLimit` when it is positive
and to 1024 otherwise, and leaves `memoryBlocks` as it was. -/
theorem start_memory_sets_limit (mbLimit : Int) (s : MemState)
    (hidle : s.memoryTaskRunning = false) :
    (StartMemoryTaskWithLimit mbLimit s).1 = true ∧
    IsMemoryTaskRunning (StartMemoryTaskWithLimit mbLimit s).2 = true ∧
    GetMaxMemoryMB (StartMemoryTaskWithLimit mbLimit s).2 =
      (if mbLimit > 0 then mbLimit else 1024) ∧
    (StartMemoryTaskWithLimit mbLimit s).2.memoryBlocks = s.memoryBlocks := by
  simp [StartMemoryTaskWithLimit, hidle, IsMemoryTaskRunning, GetMaxMemoryMB, defaultMaxMemoryMB]

/-- C4 at `mbLimit = 0` from the initial state. -/
theorem start_memory_sets_limit_witness :
    (StartMemoryTaskWithLimit 0 memInit).1 = true ∧
    IsMemoryTaskRunning (StartMemoryTaskWithLimit 0 memInit).2 = true ∧
    GetMaxMemoryMB (StartMemoryTaskWithLimit 0 memInit).2 =
      (if (0 : Int) > 0 then 0 else 1024) ∧
    (StartMemoryTaskWithLimit 0 memInit).2.memoryBlocks = memInit.memoryBlocks :=
  start_memory_sets_limit 0 memInit rfl

/-- C6: `FreeAllMemory()` brings `GetAllocatedMemoryMB()` to 0 from every state,
keeps the running flag and the limit, and a second call changes nothing. -/
theorem free_all_memory_zero_idempotent (s : MemState) :
    GetAllocatedMemoryMB (FreeAllMemory s) = 0 ∧
    IsMemoryTaskRunning (FreeAllMemory s) = IsMemoryTaskRunning s ∧
    GetMaxMemoryMB (FreeAllMemory s) = GetMaxMemoryMB s ∧
    FreeAllMemory (FreeAllMemory s) = FreeAllMemory s := by
  simp [FreeAllMemory, freeMemory, GetAllocatedMemoryMB, IsMemoryTaskRunning, GetMaxMemoryMB]

/-- C7: a memory task started with limit 5 on the initial state allocates a
10 MB block on its first allocation tick (the test `0 >= 5` fails), after
which `GetAllocatedMemoryMB()` is 10 while `GetMaxMemoryMB()` is 5. -/
theorem alloc_tick_exceeds_limit_five :
    (memRun memInit [.callStart 5, .taskEntry 0, .taskAllocTick 0]).map
      (fun r => (r.2, GetMaxMemoryMB r.1, GetAllocatedMemoryMB r.1)) =
    some ([true], 5, 10) := by
  decide

/-! ## Stopping the memory task -/

/-- No block is reported as 0 MB. -/
theorem mbOfBlocks_zero : mbOfBlocks 0 = 0 := by
  decide

/-- The value of `GetAllocatedMemoryMB()` depends on the blocks held only. -/
theorem GetAllocatedMemoryMB_eq (s : MemState) :
    GetAllocatedMemoryMB s = mbOfBlocks (blocksOf s).length := by
  cases hb : s.memoryBlocks <;> simp [GetAllocatedMemoryMB, blocksOf, hb, mbOfBlocks_zero]

/-- Only a live process takes a step. -/
theorem memStep_live (s : MemState) (e : MemEvent) (s1 : MemState) (r : Option Bool)
    (hs : memStep s e = some (s1, r)) : s.crashed = false := by
  cases hc : s.crashed with
  | false => rfl
  | true => simp [memStep, hc] at hs

/-- The steps of a `StopMemoryTask()` call and the steps of the task other than
an allocation tick leave the limit and the blocks held as they are. -/
theorem memStep_frame (s : MemState) (e : MemEvent) (s1 : MemState) (r : Option Bool)
    (he : e.keepsBlocks = true) (hs : memStep s e = some (s1, r)) :
    s1.maxMemoryMB = s.maxMemoryMB ∧ blocksOf s1 = blocksOf s := by
  have hc := memStep_live s e s1 r hs
  simp only [memStep, hc, Bool.false_eq_true, if_false] at hs
  cases e with
  | callStart L => simp [MemEvent.keepsBlocks] at he
  | callFree => simp [MemEvent.keepsBlocks] at he
  | taskAllocTick i => simp [MemEvent.keepsBlocks] at he
  | callStop =>
    simp only [Option.some.injEq, Prod.mk.injEq] at hs
    rw [← hs.1]
    cases hrun : s.memoryTaskRunning <;> simp [StopMemoryTask, hrun, blocksOf]
  | stopReturn =>
    simp only at hs
    split_ifs at hs with hen
    simp only [Option.some.injEq, Prod.mk.injEq] at hs
    rw [← hs.1]
    simp [blocksOf]
  | taskEntry i =>
    simp only at hs
    cases ht : s.tasks[i]? with
    | none => simp [ht] at hs
    | some t =>
      by_cases hpc : t.pc = .entry
      · simp only [ht, hpc, if_true, Option.some.injEq, Prod.mk.injEq] at hs
        rw [← hs.1]
        cases hb : s.memoryBlocks with
        | none =>
          cases hok : makeSliceOk (blocksCap s.maxMemoryMB) <;>
            simp [memEntry, hb, hok, blocksOf]
        | some bs => simp [memEntry, hb, blocksOf]
      · simp [ht, hpc] at hs
  | taskStop i =>
    simp only at hs
    cases ht : s.tasks[i]? with
    | none => simp [ht] at hs
    | some t =>
      by_cases hpc : t.pc = .loop ∧ 0 < s.memoryTaskChan
      · simp only [ht, hpc, and_self, if_true, Option.some.injEq, Prod.mk.injEq] at hs
        rw [← hs.1]
        simp [memStop, blocksOf]
      · simp [ht, hpc] at hs
  | taskStatusTick i =>
    simp only at hs
    cases ht : s.tasks[i]? with
    | none => simp [ht] at hs
    | some t =>
      by_cases hpc : t.pc = .loop
      · simp only [ht, hpc, if_true, Option.some.injEq, Prod.mk.injEq] at hs
        rw [← hs.1]
        simp [memStatusTick, blocksOf]
      · simp [ht, hpc] at hs
  | taskOutOfMemory i =>
    simp only at hs
    cases ht : s.tasks[i]? with
    | none => simp [ht] at hs
    | some t =>
      by_cases hpc : t.pc = .exited
      · simp [ht, hpc] at hs
      · simp only [ht, hpc, if_false, Option.some.injEq, Prod.mk.injEq] at hs
        rw [← hs.1]
        simp [blocksOf]

/-- An execution made of such steps leaves the limit and the blocks held as
they are. -/
theorem memRun_frame :
    ∀ (tr : List MemEvent) (s s2 : MemState) (rets : List Bool),
      (∀ e ∈ tr, e.keepsBlocks = true) → memRun s tr = some (s2, rets) →
      s2.maxMemoryMB = s.maxMemoryMB ∧ blocksOf s2 = blocksOf s := by
  intro tr
  induction tr with
  | nil =>
    intro s s2 rets _ h
    simp only [memRun, Option.some.injEq, Prod.mk.injEq] at h
    rw [← h.1]
    exact ⟨rfl, rfl⟩
  | cons e es ih =>
    intro s s2 rets htr h
    simp only [memRun] at h
    cases hs : memStep s e with
    | none => simp [hs] at h
    | some p =>
      obtain ⟨s1, r⟩ := p
      simp only [hs] at h
      cases hrest : memRun s1 es with
      | none => simp [hrest] at h
      | some q =>
        obtain ⟨s3, rs⟩ := q
        simp only [hrest, Option.some.injEq, Prod.mk.injEq] at h
        obtain ⟨h1, h2⟩ := memStep_frame s e s1 r (htr e (List.mem_cons_self _ _)) hs
        obtain ⟨h3, h4⟩ := ih s1 s3 rs (fun x hx => htr x (List.mem_cons_of_mem _ hx)) hrest
        rw [← h.1]
        exact ⟨h3.trans h1, h4.trans h2⟩

/-- No step other than `FreeAllMemory()` releases a block: the blocks held
before the step are a prefix of the blocks held after it. -/
theorem memStep_prefix (s : MemState) (e : MemEvent) (s1 : MemState) (r : Option Bool)
    (he : e ≠ MemEvent.callFree) (hs : memStep s e = some (s1, r)) :
    blocksOf s <+: blocksOf s1 := by
  have hkeep : e.keepsBlocks = true → blocksOf s <+: blocksOf s1 := by
    intro hk
    rw [(memStep_frame s e s1 r hk hs).2]
  have hc := memStep_live s e s1 r hs
  simp only [memStep, hc, Bool.false_eq_true, if_false] at hs
  cases e with
  | callFree => exact absurd rfl he
  | callStop => exact hkeep rfl
  | stopReturn => exact hkeep rfl
  | taskEntry i => exact hkeep rfl
  | taskStop i => exact hkeep rfl
  | taskStatusTick i => exact hkeep rfl
  | taskOutOfMemory i => exact hkeep rfl
  | callStart L =>
    simp only [Option.some.injEq, Prod.mk.injEq] at hs
    rw [← hs.1]
    cases hrun : s.memoryTaskRunning <;> simp [StartMemoryTaskWithLimit, hrun, blocksOf]
  | taskAllocTick i =>
    simp only at hs
    cases ht : s.tasks[i]? with
    | none => simp [ht] at hs
    | some t =>
      by_cases hpc : t.pc = .loop
      · simp only [ht, hpc, if_true, Option.some.injEq, Prod.mk.injEq] at hs
        rw [← hs.1]
        by_cases hge : t.allocatedMB ≥ t.memoryLimit
        · simp [memAllocTick, hge, blocksOf]
        · cases hb : s.memoryBlocks <;> simp [memAllocTick, hge, blocksOf, hb]
      · simp [ht, hpc] at hs

/-- No execution without `FreeAllMemory()` releases a block. -/
theorem memRun_prefix :
    ∀ (tr : List MemEvent) (s s2 : MemState) (rets : List Bool),
      (∀ e ∈ tr, e ≠ MemEvent.callFree) → memRun s tr = some (s2, rets) →
      blocksOf s <+: blocksOf s2 := by
  intro tr
  induction tr with
  | nil =>
    intro s s2 rets _ h
    simp only [memRun, Option.some.injEq, Prod.mk.injEq] at h
    rw [← h.1]
  | cons e es ih =>
    intro s s2 rets htr h
    simp only [memRun] at h
    cases hs : memStep s e with
    | none => simp [hs] at h
    | some p =>
      obtain ⟨s1, r⟩ := p
      simp only [hs] at h
      cases hrest : memRun s1 es with
      | none => simp [hrest] at h
      | some q =>
        obtain ⟨s3, rs⟩ := q
        simp only [hrest, Option.some.injEq, Prod.mk.injEq] at h
        have h1 := memStep_prefix s e s1 r (htr e (List.mem_cons_self _ _)) hs
        have h2 := ih s1 s3 rs (fun x hx => htr x (List.mem_cons_of_mem _ hx)) hrest
        rw [← h.1]
        exact h1.trans h2

/-- A step that is not an API call keeps fewer stop signals pending than the
wait group counts, and returns no value. -/
theorem memStep_blocked (s : MemState) (e : MemEvent) (s1 : MemState) (r : Option Bool)
    (hlt : s.memoryTaskChan < s.memoryTaskWg) (he : e.isApiCall = false)
    (hs : memStep s e = some (s1, r)) :
    s1.memoryTaskChan < s1.memoryTaskWg ∧ r = none := by
  have hc := memStep_live s e s1 r hs
  simp only [memStep, hc, Bool.false_eq_true, if_false] at hs
  cases e with
  | callStart L => simp [MemEvent.isApiCall] at he
  | callStop => simp [MemEvent.isApiCall] at he
  | callFree => simp [MemEvent.isApiCall] at he
  | stopReturn =>
    simp only at hs
    split_ifs at hs with hen
    omega
  | taskEntry i =>
    simp only at hs
    cases ht : s.tasks[i]? with
    | none => simp [ht] at hs
    | some t =>
      by_cases hpc : t.pc = .entry
      · simp only [ht, hpc, if_true, Option.some.injEq, Prod.mk.injEq] at hs
        rw [← hs.1, ← hs.2]
        refine ⟨?_, rfl⟩
        by_cases hcr : s.memoryBlocks = none ∧ makeSliceOk (blocksCap s.maxMemoryMB) = false
        · simpa [memEntry, hcr] using hlt
        · simpa [memEntry, hcr] using hlt
      · simp [ht, hpc] at hs
  | taskStop i =>
    simp only at hs
    cases ht : s.tasks[i]? with
    | none => simp [ht] at hs
    | some t =>
      by_cases hpc : t.pc = .loop ∧ 0 < s.memoryTaskChan
      · simp only [ht, hpc, and_self, if_true, Option.some.injEq, Prod.mk.injEq] at hs
        rw [← hs.1, ← hs.2]
        refine ⟨?_, rfl⟩
        simp only [memStop]
        omega
      · simp [ht, hpc] at hs
  | taskAllocTick i =>
    simp only at hs
    cases ht : s.tasks[i]? with
    | none => simp [ht] at hs
    | some t =>
      by_cases hpc : t.pc = .loop
      · simp only [ht, hpc, if_true, Option.some.injEq, Prod.mk.injEq] at hs
        rw [← hs.1, ← hs.2]
        refine ⟨?_, rfl⟩
        by_cases hge : t.allocatedMB ≥ t.memoryLimit
        · simpa [memAllocTick, hge] using hlt
        · simpa [memAllocTick, hge] using hlt
      · simp [ht, hpc] at hs
  | taskStatusTick i =>
    simp only at hs
    cases ht : s.tasks[i]? with
    | none => simp [ht] at hs
    | some t =>
      by_cases hpc : t.pc = .loop
      · simp only [ht, hpc, if_true, Option.some.injEq, Prod.mk.injEq] at hs
        rw [← hs.1, ← hs.2]
        exact ⟨hlt, rfl⟩
      · simp [ht, hpc] at hs
  | taskOutOfMemory i =>
    simp only at hs
    cases ht : s.tasks[i]? with
    | none => simp [ht] at hs
    | some t =>
      by_cases hpc : t.pc = .exited
      · simp [ht, hpc] at hs
      · simp only [ht, hpc, if_false, Option.some.injEq, Prod.mk.injEq] at hs
        rw [← hs.1, ← hs.2]
        exact ⟨hlt, rfl⟩

/-- With fewer stop signals pending than the wait group counts, no blocked
`StopMemoryTask()` call returns as long as no further API call is made: one of
the counted tasks never receives a signal. -/
theorem memRun_blocked :
    ∀ (tr : List MemEvent) (s s2 : MemState) (rets : List Bool),
      s.memoryTaskChan < s.memoryTaskWg → (∀ e ∈ tr, e.isApiCall = false) →
      memRun s tr = some (s2, rets) → rets = [] := by
  intro tr
  induction tr with
  | nil =>
    intro s s2 rets _ _ h
    simp only [memRun, Option.some.injEq, Prod.mk.injEq] at h
    exact h.2.symm
  | cons e es ih =>
    intro s s2 rets hlt htr h
    simp only [memRun] at h
    cases hs : memStep s e with
    | none => simp [hs] at h
    | some p =>
      obtain ⟨s1, r⟩ := p
      simp only [hs] at h
      cases hrest : memRun s1 es with
      | none => simp [hrest] at h
      | some q =>
        obtain ⟨s3, rs⟩ := q
        simp only [hrest, Option.some.injEq, Prod.mk.injEq] at h
        obtain ⟨h1, h2⟩ := memStep_blocked s e s1 r hlt (htr e (List.mem_cons_self _ _)) hs
        have h3 := ih s1 s3 rs h1 (fun x hx => htr x (List.mem_cons_of_mem _ hx)) hrest
        rw [← h.2, h2, h3]
        rfl

/-- C5, as stated, fails in two ways.
(a) At the sample state, which holds 20 MB, the task takes an allocation tick
after `StopMemoryTask()` has sent the stop signal and before the task receives
it: the call returns `true` and `GetAllocatedMemoryMB()` is 30.
(b) After `StartMemoryTaskWithLimit(50)`, a `StopMemoryTask()` that is still in
its wait, and `StartMemoryTaskWithLimit(60)`, the task is running with two live
task goroutines; a further `StopMemoryTask()` leaves one stop signal pending for
a wait group that counts 2, and in that state no wait ends
(`memRun_blocked`). -/
theorem stop_memory_changes_allocated :
    (GetAllocatedMemoryMB memSample = 20 ∧
      (memRun memSample [.callStop, .taskAllocTick 0, .taskStop 0, .stopReturn]).map
          (fun r => (r.2, IsMemoryTaskRunning r.1, GetAllocatedMemoryMB r.1)) =
        some ([true], false, 30)) ∧
    ((memRun memInit [.callStart 50, .taskEntry 0, .callStop, .callStart 60, .taskEntry 1]).map
          (fun r => (r.2, IsMemoryTaskRunning r.1)) = some ([true, true], true) ∧
      (memRun memInit [.callStart 50, .taskEntry 0, .callStop, .callStart 60, .taskEntry 1,
          .callStop]).map
          (fun r => (r.2, r.1.memoryTaskChan, r.1.memoryTaskWg, r.1.stopWaiters)) =
        some ([true, true], 1, 2, 2)) := by
  decide

/-- C5, amended: on every state in which the memory task is running,
(1) the locked part of `StopMemoryTask()` yields the result `true`, clears the
running flag and leaves `memoryBlocks` and the limit as they were;
(2) when the process is alive and task `i` is the one live task, the call runs
to its return, provided the task's start-up, if still to come, does not panic:
it returns `true`, and afterwards the running flag is off while the limit, the
blocks held and `GetAllocatedMemoryMB()` are what they were before the call;
(3) every execution that begins with the call and goes on with steps of the
call and steps of the task other than an allocation tick leaves the limit, the
blocks held and `GetAllocatedMemoryMB()` as they were;
(4) every execution that begins with the call and has no `FreeAllMemory()` in
it, whatever allocation ticks the task still takes before it receives the stop
signal, releases no block: the blocks held before the call are a prefix of the
blocks held afterwards. -/
theorem stop_memory_keeps_blocks (s : MemState) (hrun : s.memoryTaskRunning = true) :
    ((StopMemoryTask s).1 = true ∧
      IsMemoryTaskRunning (StopMemoryTask s).2 = false ∧
      (StopMemoryTask s).2.memoryBlocks = s.memoryBlocks ∧
      GetMaxMemoryMB (StopMemoryTask s).2 = GetMaxMemoryMB s ∧
      GetAllocatedMemoryMB (StopMemoryTask s).2 = GetAllocatedMemoryMB s) ∧
    (∀ (i : Nat) (t : MemTask), s.crashed = false → s.tasks[i]? = some t →
      t.pc ≠ .exited → s.memoryTaskWg = 1 →
      (t.pc = .entry → s.memoryBlocks = none → makeSliceOk (blocksCap s.maxMemoryMB) = true) →
      ∃ s2, memRun s (stopSchedule i t.pc) = some (s2, [true]) ∧
        IsMemoryTaskRunning s2 = false ∧
        GetMaxMemoryMB s2 = GetMaxMemoryMB s ∧
        blocksOf s2 = blocksOf s ∧
        GetAllocatedMemoryMB s2 = GetAllocatedMemoryMB s) ∧
    (∀ (tr : List MemEvent) (s2 : MemState) (rets : List Bool),
      (∀ e ∈ tr, e.keepsBlocks = true) →
      memRun s (MemEvent.callStop :: tr) = some (s2, rets) →
        GetMaxMemoryMB s2 = GetMaxMemoryMB s ∧
        blocksOf s2 = blocksOf s ∧
        GetAllocatedMemoryMB s2 = GetAllocatedMemoryMB s) ∧
    (∀ (tr : List MemEvent) (s2 : MemState) (rets : List Bool),
      (∀ e ∈ tr, e ≠ MemEvent.callFree) →
      memRun s (MemEvent.callStop :: tr) = some (s2, rets) →
        blocksOf s <+: blocksOf s2) := by
  refine ⟨by simp [StopMemoryTask, hrun, IsMemoryTaskRunning, GetMaxMemoryMB,
    GetAllocatedMemoryMB], ?_, ?_, ?_⟩
  · intro i t hc ht hpc hwg hmake
    have hi : i < s.tasks.length := by
      rcases List.getElem?_eq_some.mp ht with ⟨h, _⟩
      exact h
    have hch : s.memoryTaskChan = 0 ∨ (¬ s.memoryTaskChan = 0 ∧ 0 < s.memoryTaskChan) := by
      omega
    cases hp : t.pc with
    | exited => exact absurd hp hpc
    | entry =>
      cases hb : s.memoryBlocks with
      | none =>
        have hok := hmake hp hb
        rcases hch with hch | ⟨hch, hpos⟩
        · simp [stopSchedule, memRun, memStep, StopMemoryTask, hrun, ht, hp, memEntry, memStop,
            hi, hwg, hch, hb, hc, hok, IsMemoryTaskRunning, GetMaxMemoryMB, blocksOf,
            GetAllocatedMemoryMB, mbOfBlocks_zero]
        · simp [stopSchedule, memRun, memStep, StopMemoryTask, hrun, ht, hp, memEntry, memStop,
            hi, hwg, hch, hpos, hb, hc, hok, IsMemoryTaskRunning, GetMaxMemoryMB, blocksOf,
            GetAllocatedMemoryMB, mbOfBlocks_zero]
      | some bs =>
        rcases hch with hch | ⟨hch, hpos⟩
        · simp [stopSchedule, memRun, memStep, StopMemoryTask, hrun, ht, hp, memEntry, memStop,
            hi, hwg, hch, hb, hc, IsMemoryTaskRunning, GetMaxMemoryMB, blocksOf,
            GetAllocatedMemoryMB]
        · simp [stopSchedule, memRun, memStep, StopMemoryTask, hrun, ht, hp, memEntry, memStop,
            hi, hwg, hch, hpos, hb, hc, IsMemoryTaskRunning, GetMaxMemoryMB, blocksOf,
            GetAllocatedMemoryMB]
    | loop =>
      rcases hch with hch | ⟨hch, hpos⟩
      · simp [stopSchedule, memRun, memStep, StopMemoryTask, hrun, ht, hp, memStop,
          hwg, hch, hc, IsMemoryTaskRunning, GetMaxMemoryMB, blocksOf, GetAllocatedMemoryMB]
      · simp [stopSchedule, memRun, memStep, StopMemoryTask, hrun, ht, hp, memStop,
          hwg, hch, hpos, hc, IsMemoryTaskRunning, GetMaxMemoryMB, blocksOf,
          GetAllocatedMemoryMB]
  · intro tr s2 rets htr h
    have hall : ∀ e ∈ MemEvent.callStop :: tr, e.keepsBlocks = true := by
      intro e he
      rcases List.mem_cons.mp he with h0 | h0
      · rw [h0]; rfl
      · exact htr e h0
    obtain ⟨h1, h2⟩ := memRun_frame _ s s2 rets hall h
    exact ⟨h1, h2, by rw [GetAllocatedMemoryMB_eq, GetAllocatedMemoryMB_eq, h2]⟩
  · intro tr s2 rets htr h
    refine memRun_prefix _ s s2 rets ?_ h
    intro e he
    rcases List.mem_cons.mp he with h0 | h0
    · rw [h0]; intro hx; cases hx
    · exact htr e h0

/-- The sample state is reached from the initial state. -/
theorem memSample_reached :
    memRun memInit [.callStart 50, .taskEntry 0, .taskAllocTick 0, .taskAllocTick 0] =
      some (memSample, [true]) := by
  decide

/-- C5, amended, at the sample state: the call returns `true` on the schedule
`callStop, taskStop 0, stopReturn` and 20 MB stay allocated. -/
theorem stop_memory_keeps_blocks_witness :
    memSample.memoryTaskRunning = true ∧
    ∃ s2, memRun memSample (stopSchedule 0 MemPc.loop) = some (s2, [true]) ∧
      IsMemoryTaskRunning s2 = false ∧
      GetMaxMemoryMB s2 = GetMaxMemoryMB memSample ∧
      blocksOf s2 = blocksOf memSample ∧
      GetAllocatedMemoryMB s2 = GetAllocatedMemoryMB memSample :=
  ⟨rfl, (stop_memory_keeps_blocks memSample rfl).2.1 0
    { pc := .loop, memoryLimit := 50, allocatedMB := 20, allocTickerStopped := false }
    rfl rfl (by decide) rfl (fun h => absurd h (by decide))⟩

/-! ## The allocation loop -/

/-- The megabytes reported for `n` blocks, as long as their size in bytes is
below `2^63`, which is `10 * n < 2^43`. -/
theorem mb_of_len (n : Nat) (h : 10 * n < 2 ^ 43) : mbOfBlocks n = 10 * (n : Int) := by
  have hw : wrapInt ((n : Int) * (blockSize : Int)) = (n : Int) * 10485760 := by
    unfold wrapInt blockSize
    push_cast
    omega
  unfold mbOfBlocks
  rw [hw, Int.tdiv_eq_ediv (by omega) (by omega)]
  omega

/-- Replaying ticks on a live task in its loop with limit `L` that holds `base`
and `c` further blocks, where `need` is the number of blocks after `base` at
which the test `allocatedMB >= memoryLimit` first succeeds and the size of
`base` with `need` blocks is below `2^63` bytes: every allocation tick appends
one block until `need` are appended, and nothing after that. -/
theorem memRun_ticks (i : Nat) (base : List Block) (L : Int) (need : Nat)
    (hneed : ∀ c, c ≤ need → (10 * ((base.length + c : Nat) : Int) < L ↔ c < need))
    (hL : L ≠ 0) (hfit : 10 * (base.length + need) < 2 ^ 43) :
    ∀ (ticks : List Tick) (s : MemState) (c : Nat) (t : MemTask),
      s.crashed = false →
      s.tasks[i]? = some t → t.pc = .loop →
      t.memoryLimit = L →
      s.memoryBlocks = some (base ++ List.replicate c blockSize) →
      t.allocatedMB = 10 * ((base.length + c : Nat) : Int) →
      c ≤ need →
      ∃ s2 t2, memRun s (ticks.map (tickEvent i)) = some (s2, []) ∧
        s2.memoryBlocks =
          some (base ++ List.replicate (min (c + ticks.count Tick.alloc) need) blockSize) ∧
        s2.memoryTaskRunning = s.memoryTaskRunning ∧
        s2.maxMemoryMB = s.maxMemoryMB ∧
        s2.crashed = false ∧
        s2.tasks[i]? = some t2 ∧ t2.pc = .loop := by
  intro ticks
  induction ticks with
  | nil =>
    intro s c t hcr ht hpc _ hb _ hc
    exact ⟨s, t, rfl, by simp [hb, Nat.min_eq_left hc], rfl, rfl, hcr, ht, hpc⟩
  | cons tk rest ih =>
    intro s c t hcr ht hpc hlim hb hal hc
    have hi : i < s.tasks.length := (List.getElem?_eq_some.mp ht).1
    have hL0 : ¬ t.memoryLimit = 0 := by rw [hlim]; exact hL
    have hcnt : (Tick.alloc :: rest).count Tick.alloc = rest.count Tick.alloc + 1 := by
      simp [List.count_cons]
    cases tk with
    | alloc =>
      have hstep : memStep s (.taskAllocTick i) = some (memAllocTick s i t, none) := by
        simp [memStep, hcr, ht, hpc]
      by_cases hlt : c < need
      · have hnot : ¬ t.allocatedMB ≥ t.memoryLimit := by
          rw [hal, hlim]
          exact not_le.mpr ((hneed c hc).mpr hlt)
        have hmb : mbOfBlocks (base ++ List.replicate c blockSize ++ [blockSize]).length =
            10 * ((base.length + (c + 1) : Nat) : Int) := by
          have hl : (base ++ List.replicate c blockSize ++ [blockSize]).length =
              base.length + (c + 1) := by
            simp only [List.length_append, List.length_replicate, List.length_singleton]
            omega
          rw [hl, mb_of_len _ (by omega)]
        obtain ⟨s2, t2, hrun, hb2, hr2, hm2, hc2, ht2, hpc2⟩ :=
          ih (memAllocTick s i t) (c + 1)
            { t with allocatedMB :=
                mbOfBlocks (base ++ List.replicate c blockSize ++ [blockSize]).length }
            (by simp [memAllocTick, hnot, hL0])
            (by simp [memAllocTick, hnot, hb, hi])
            hpc hlim
            (by simp [memAllocTick, hnot, hb, List.replicate_succ'])
            (by simp only; exact hmb)
            hlt
        refine ⟨s2, t2, ?_, ?_, ?_, ?_, hc2, ht2, hpc2⟩
        · simp [memRun, tickEvent, hstep, hrun]
        · rw [hb2, hcnt, Nat.add_right_comm c 1, Nat.add_assoc]
        · rw [hr2]; simp [memAllocTick, hnot]
        · rw [hm2]; simp [memAllocTick, hnot]
      · have hge : t.allocatedMB ≥ t.memoryLimit := by
          rw [hal, hlim]
          exact not_lt.mp (fun h => hlt ((hneed c hc).mp h))
        obtain ⟨s2, t2, hrun, hb2, hr2, hm2, hc2, ht2, hpc2⟩ :=
          ih (memAllocTick s i t) c { t with allocTickerStopped := true }
            (by simp [memAllocTick, hge, hcr])
            (by simp [memAllocTick, hge, hi])
            hpc hlim
            (by simp [memAllocTick, hge, hb])
            hal hc
        refine ⟨s2, t2, ?_, ?_, ?_, ?_, hc2, ht2, hpc2⟩
        · simp [memRun, tickEvent, hstep, hrun]
        · rw [hb2, hcnt, show min (c + rest.count Tick.alloc) need =
            min (c + (rest.count Tick.alloc + 1)) need by omega]
        · rw [hr2]; simp [memAllocTick, hge]
        · rw [hm2]; simp [memAllocTick, hge]
    | status =>
      have hstep : memStep s (.taskStatusTick i) = some (memStatusTick s i t, none) := by
        simp [memStep, hcr, ht, hpc]
      have hmb : mbOfBlocks (lenBlocks s) = 10 * ((base.length + c : Nat) : Int) := by
        have hl : lenBlocks s = base.length + c := by simp [lenBlocks, hb]
        rw [hl, mb_of_len _ (by omega)]
      obtain ⟨s2, t2, hrun, hb2, hr2, hm2, hc2, ht2, hpc2⟩ :=
        ih (memStatusTick s i t) c
          { t with allocatedMB := mbOfBlocks (lenBlocks s) }
          (by simp [memStatusTick, hL0])
          (by simp [memStatusTick, hi])
          hpc hlim
          (by simp [memStatusTick, hb])
          (by simp only; exact hmb)
          hc
      refine ⟨s2, t2, ?_, ?_, ?_, ?_, hc2, ht2, hpc2⟩
      · simp [memRun, tickEvent, hstep, hrun]
      · rw [hb2]; simp [List.count_cons]
      · rw [hr2]; simp [memStatusTick]
      · rw [hm2]; simp [memStatusTick]

/-- The number of blocks held is the length of the list of blocks held. -/
theorem length_blocksOf (s : MemState) : (blocksOf s).length = lenBlocks s := by
  cases hb : s.memoryBlocks <;> simp [blocksOf, lenBlocks, hb]

/-- A limit below `2^43` MB gives a capacity that `make` accepts. -/
theorem makeSliceOk_of_fit (L : Int) (hpos : 0 < L) (hfit : L < 2 ^ 43) :
    makeSliceOk (blocksCap L) = true := by
  have h10 : ((blockSize / (1024 * 1024) : Nat) : Int) = 10 := by decide
  unfold makeSliceOk blocksCap sliceHeaderSize maxAlloc
  rw [h10, Int.tdiv_eq_ediv (by omega) (by omega)]
  simp only [decide_eq_true_eq]
  constructor <;> omega

/-- On a live, idle memory controller, `StartMemoryTaskWithLimit(L)` with
`0 < L`, the start-up of the new task and any sequence of its ticks, where the
size of the blocks held with `need` further blocks is below `2^63` bytes and
`L < 2^43`: the call has returned `true`, the block list is the old one
followed by `min n need` new blocks, where `n` is the number of allocation
ticks, and the task is still running in its loop. -/
theorem memRun_start_ticks (s : MemState) (L : Int) (need : Nat) (ticks : List Tick)
    (hidle : s.memoryTaskRunning = false) (hlive : s.crashed = false) (hpos : 0 < L)
    (hlim : L < 2 ^ 43)
    (hneed : ∀ c, c ≤ need → (10 * ((lenBlocks s + c : Nat) : Int) < L ↔ c < need))
    (hfit : 10 * (lenBlocks s + need) < 2 ^ 43) :
    ∃ s2, memRun s (MemEvent.callStart L :: MemEvent.taskEntry s.tasks.length ::
          ticks.map (tickEvent s.tasks.length)) = some (s2, [true]) ∧
      s2.memoryBlocks = some (blocksOf s ++ List.replicate
        (min (ticks.count Tick.alloc) need) blockSize) ∧
      IsMemoryTaskRunning s2 = true ∧
      (∃ t, s2.tasks[s.tasks.length]? = some t ∧ t.pc = .loop) ∧
      GetMaxMemoryMB s2 = L ∧
      s2.crashed = false := by
  have hlen := length_blocksOf s
  have hok := makeSliceOk_of_fit L hpos hlim
  have hstart : StartMemoryTaskWithLimit L s =
      (true, { s with
        maxMemoryMB := L
        memoryTaskChan := 0
        memoryTaskRunning := true
        memoryTaskWg := s.memoryTaskWg + 1
        tasks := s.tasks ++
          [{ pc := .entry, memoryLimit := 0, allocatedMB := 0,
             allocTickerStopped := false }] }) := by
    simp [StartMemoryTaskWithLimit, hidle, hpos]
  have hentry : memEntry (StartMemoryTaskWithLimit L s).2 s.tasks.length
        { pc := .entry, memoryLimit := 0, allocatedMB := 0, allocTickerStopped := false } =
      { s with
        maxMemoryMB := L
        memoryTaskChan := 0
        memoryTaskRunning := true
        memoryTaskWg := s.memoryTaskWg + 1
        memoryBlocks := some (blocksOf s)
        tasks := (s.tasks ++
          [({ pc := .entry, memoryLimit := 0, allocatedMB := 0,
              allocTickerStopped := false } : MemTask)]).set s.tasks.length
            { pc := .loop, memoryLimit := L,
              allocatedMB := if (blocksOf s).length > 0 then mbOfBlocks (blocksOf s).length
                else 0,
              allocTickerStopped := false } } := by
    cases hb : s.memoryBlocks <;> simp [hstart, memEntry, blocksOf, hb, hok]
  obtain ⟨s2, t2, hrun, hb2, hr2, hm2, hc2, ht2, hpc2⟩ :=
    memRun_ticks s.tasks.length (blocksOf s) L need (by rw [hlen]; exact hneed)
      (by omega) (by rw [hlen]; exact hfit) ticks
      (memEntry (StartMemoryTaskWithLimit L s).2 s.tasks.length
        { pc := .entry, memoryLimit := 0, allocatedMB := 0, allocTickerStopped := false })
      0
      { pc := .loop, memoryLimit := L,
        allocatedMB := if (blocksOf s).length > 0 then mbOfBlocks (blocksOf s).length else 0,
        allocTickerStopped := false }
      (by rw [hentry]; exact hlive)
      (by rw [hentry]; simp)
      rfl rfl
      (by rw [hentry]; simp)
      (by
        by_cases h0 : (blocksOf s).length > 0
        · rw [if_pos h0, mb_of_len _ (by rw [hlen]; omega)]
          simp
        · have : (blocksOf s).length = 0 := by omega
          simp [this])
      (Nat.zero_le _)
  refine ⟨s2, ?_, ?_, ?_, ⟨t2, ht2, hpc2⟩, ?_, hc2⟩
  · simp only [hstart, hlive] at hrun
    simp [memRun, memStep, hlive, hstart, hrun]
  · rw [hb2]; simp
  · rw [IsMemoryTaskRunning, hr2, hentry]
  · rw [GetMaxMemoryMB, hm2, hentry]

/-- From an empty block list a task with limit `0 < L ≤ 2^43 - 10` holds
`10 * min n ((L + 9) / 10)` megabytes after `n` allocation ticks: it stops at
the first multiple of 10 that is at least `L`, less than 10 above the limit. -/
theorem alloc_from_empty (s : MemState) (L : Int) (ticks : List Tick)
    (hidle : s.memoryTaskRunning = false) (hlive : s.crashed = false) (hpos : 0 < L)
    (hlim : L ≤ 2 ^ 43 - 10) (hempty : lenBlocks s = 0) :
    ∃ s2, memRun s (MemEvent.callStart L :: MemEvent.taskEntry s.tasks.length ::
          ticks.map (tickEvent s.tasks.length)) = some (s2, [true]) ∧
      GetAllocatedMemoryMB s2 =
        10 * ((min (ticks.count Tick.alloc) ((L + 9) / 10).toNat : Nat) : Int) ∧
      GetAllocatedMemoryMB s2 < L + 10 := by
  obtain ⟨s2, hrun, hb2, -, -, -, -⟩ :=
    memRun_start_ticks s L ((L + 9) / 10).toNat ticks hidle hlive hpos (by omega)
      (by intro c _; rw [hempty]; push_cast; omega)
      (by rw [hempty]; omega)
  have hlen := length_blocksOf s
  have hmin : min (ticks.count Tick.alloc) ((L + 9) / 10).toNat ≤ ((L + 9) / 10).toNat :=
    Nat.min_le_right _ _
  have hval : GetAllocatedMemoryMB s2 =
      10 * ((min (ticks.count Tick.alloc) ((L + 9) / 10).toNat : Nat) : Int) := by
    rw [GetAllocatedMemoryMB, hb2]
    simp only [List.length_append, List.length_replicate, hlen, hempty, Nat.zero_add]
    rw [mb_of_len _ (by omega)]
  refine ⟨s2, hrun, hval, ?_⟩
  rw [hval]
  omega

/-- C8, as stated, fails for a large limit: after
`StartMemoryTaskWithLimit(9223372036854775800)` on the initial state the `make`
of line 99 is asked for a capacity of 922337203685477580 slice headers and
panics in the start-up of the task.  The process has died with nothing
allocated, and no allocation tick follows.  Beyond `2^63` bytes the count of
megabytes is wrong as well: for 879609302221 blocks the product
`len(memoryBlocks) * blockSize` wraps around and the count is negative. -/
theorem alloc_large_limit_crashes :
    (memRun memInit [.callStart 9223372036854775800, .taskEntry 0]).map
        (fun r => (r.2, r.1.crashed, GetAllocatedMemoryMB r.1)) = some ([true], true, 0) ∧
    memRun memInit [.callStart 9223372036854775800, .taskEntry 0, .taskAllocTick 0] = none ∧
    mbOfBlocks 879609302221 = -8796093022206 := by
  decide

/-- C8, amended: on a live, idle memory controller that holds `k = lenBlocks s`
blocks, with a limit `L` that is a positive multiple of 10 whose size in bytes
is a Go `int` (`L * 2^20 < 2^63`) and with `10 * k ≤ L`, in every execution
without `Free` in which the runtime grants the allocations: after
`StartMemoryTaskWithLimit(L)`, the start-up of the new task and any sequence of
its ticks, the call has returned `true`, the block list is the old one followed
by `min n ((L - 10 * k) / 10)` new blocks, where `n` is the number of allocation
ticks so far, the task is still running in its loop, and once `n` has reached
`(L - 10 * k) / 10` `GetAllocatedMemoryMB()` is `L`. -/
theorem alloc_reaches_limit (s : MemState) (L : Int) (ticks : List Tick)
    (hidle : s.memoryTaskRunning = false) (hlive : s.crashed = false)
    (hpos : 0 < L) (hmul : L % 10 = 0) (hfit : L * (1024 * 1024) < 2 ^ 63)
    (hheld : 10 * (lenBlocks s : Int) ≤ L) :
    ∃ s2, memRun s (MemEvent.callStart L :: MemEvent.taskEntry s.tasks.length ::
          ticks.map (tickEvent s.tasks.length)) = some (s2, [true]) ∧
      s2.memoryBlocks = some (blocksOf s ++ List.replicate
        (min (ticks.count Tick.alloc) ((L - 10 * (lenBlocks s : Int)) / 10).toNat) blockSize) ∧
      IsMemoryTaskRunning s2 = true ∧
      (∃ t, s2.tasks[s.tasks.length]? = some t ∧ t.pc = .loop) ∧
      GetMaxMemoryMB s2 = L ∧
      (((L - 10 * (lenBlocks s : Int)) / 10).toNat ≤ ticks.count Tick.alloc →
        GetAllocatedMemoryMB s2 = L) := by
  have hlen := length_blocksOf s
  have hlim : L < 2 ^ 43 := by omega
  obtain ⟨s2, hrun, hb2, hr2, ht2, hm2, -⟩ :=
    memRun_start_ticks s L ((L - 10 * (lenBlocks s : Int)) / 10).toNat ticks hidle hlive hpos
      hlim (by intro c _; push_cast; omega) (by omega)
  refine ⟨s2, hrun, hb2, hr2, ht2, hm2, ?_⟩
  intro hn
  rw [GetAllocatedMemoryMB, hb2]
  simp only [List.length_append, List.length_replicate, hlen, Nat.min_eq_right hn]
  rw [mb_of_len _ (by omega)]
  push_cast
  omega

/-- C8, amended, at `L = 50` from the initial state (no block held) with seven
allocation ticks and a status tick: the run ends with 50 MB allocated. -/
theorem alloc_reaches_limit_witness :
    memInit.memoryTaskRunning = false ∧ memInit.crashed = false ∧
    (0 : Int) < 50 ∧ (50 : Int) % 10 = 0 ∧ (50 : Int) * (1024 * 1024) < 2 ^ 63 ∧
    10 * (lenBlocks memInit : Int) ≤ 50 ∧
    ∃ s2, memRun memInit (MemEvent.callStart 50 :: MemEvent.taskEntry memInit.tasks.length ::
          [Tick.alloc, .alloc, .status, .alloc, .alloc, .alloc, .alloc, .alloc].map
            (tickEvent memInit.tasks.length)) = some (s2, [true]) ∧
      s2.memoryBlocks = some (blocksOf memInit ++ List.replicate
        (min ([Tick.alloc, .alloc, .status, .alloc, .alloc, .alloc, .alloc, .alloc].count
          Tick.alloc) ((50 - 10 * (lenBlocks memInit : Int)) / 10).toNat) blockSize) ∧
      IsMemoryTaskRunning s2 = true ∧
      (∃ t, s2.tasks[memInit.tasks.length]? = some t ∧ t.pc = .loop) ∧
      GetMaxMemoryMB s2 = 50 ∧
      (((50 - 10 * (lenBlocks memInit : Int)) / 10).toNat ≤
          [Tick.alloc, .alloc, .status, .alloc, .alloc, .alloc, .alloc, .alloc].count Tick.alloc →
        GetAllocatedMemoryMB s2 = 50) :=
  ⟨rfl, rfl, by decide, by decide, by decide, by decide,
    alloc_reaches_limit memInit 50 _ rfl rfl (by decide) (by decide) (by decide) (by decide)⟩

/-! ## Executions of the CPU controller -/

/-- An execution of a concatenation splits into two executions. -/
theorem cpuRun_append (numCPU : Int) :
    ∀ (xs ys : List CpuEvent) (s s' : CpuState) (rets : List Bool),
      cpuRun numCPU s (xs ++ ys) = some (s', rets) →
      ∃ s1 r1 r2, cpuRun numCPU s xs = some (s1, r1) ∧
        cpuRun numCPU s1 ys = some (s', r2) ∧ rets = r1 ++ r2 := by
  intro xs
  induction xs with
  | nil =>
    intro ys s s' rets h
    exact ⟨s, [], rets, rfl, h, rfl⟩
  | cons e es ih =>
    intro ys s s' rets h
    replace h : cpuRun numCPU s (e :: (es ++ ys)) = some (s', rets) := h
    simp only [cpuRun] at h
    cases hstep : cpuStep numCPU s e with
    | none => simp [hstep] at h
    | some p =>
      obtain ⟨s1, r⟩ := p
      simp only [hstep] at h
      cases hrest : cpuRun numCPU s1 (es ++ ys) with
      | none => simp [hrest] at h
      | some q =>
        obtain ⟨s2, rs⟩ := q
        simp only [hrest, Option.some.injEq, Prod.mk.injEq] at h
        obtain ⟨s3, r1, r2, h1, h2, h3⟩ := ih ys s1 s2 rs hrest
        refine ⟨s3, r.toList ++ r1, r2, ?_, ?_, ?_⟩
        · simp [cpuRun, hstep, h1]
        · rw [← h.1]; exact h2
        · rw [← h.2, h3, List.append_assoc]

/-- A property kept by every enabled goroutine step, none of which returns a
value to a caller, is kept by every execution made of goroutine steps, which
returns no value. -/
theorem cpuRun_goroutines (numCPU : Int) (P : CpuState → Prop)
    (hstep : ∀ s e s1 r, P s → e.isGoroutine = true →
      cpuStep numCPU s e = some (s1, r) → P s1 ∧ r = none) :
    ∀ (g : List CpuEvent) (s s' : CpuState) (rets : List Bool),
      P s → (∀ e ∈ g, e.isGoroutine = true) →
      cpuRun numCPU s g = some (s', rets) → P s' ∧ rets = [] := by
  intro g
  induction g with
  | nil =>
    intro s s' rets hP _ h
    simp only [cpuRun, Option.some.injEq, Prod.mk.injEq] at h
    exact ⟨h.1 ▸ hP, h.2.symm⟩
  | cons e es ih =>
    intro s s' rets hP hg h
    simp only [cpuRun] at h
    cases hs : cpuStep numCPU s e with
    | none => simp [hs] at h
    | some p =>
      obtain ⟨s1, r⟩ := p
      simp only [hs] at h
      cases hrest : cpuRun numCPU s1 es with
      | none => simp [hrest] at h
      | some q =>
        obtain ⟨s2, rs⟩ := q
        simp only [hrest, Option.some.injEq, Prod.mk.injEq] at h
        obtain ⟨hP1, hr⟩ := hstep s e s1 r hP (hg e (List.mem_cons_self _ _)) hs
        obtain ⟨hP2, hrs⟩ :=
          ih s1 s2 rs hP1 (fun e' he' => hg e' (List.mem_cons_of_mem _ he')) hrest
        refine ⟨h.1 ▸ hP2, ?_⟩
        rw [← h.2, hr, hrs]
        rfl

/-- Clamping a clamped core count changes nothing. -/
theorem clampCoreCount_idem (numCPU x : Int) :
    clampCoreCount numCPU (clampCoreCount numCPU x) = clampCoreCount numCPU x := by
  unfold clampCoreCount
  simp only
  split_ifs <;> omega

/-- The clamped core count in closed form. -/
theorem clampCoreCount_eq (numCPU x : Int) :
    clampCoreCount numCPU x = if x ≤ 0 then numCPU else min x numCPU := by
  unfold clampCoreCount
  simp only
  split_ifs <;> omega

/-- A goroutine step on an idle controller keeps it idle. -/
theorem cpuStep_idle (numCPU : Int) (s : CpuState) (e : CpuEvent) (s1 : CpuState)
    (r : Option Bool) (hidle : cpuIdle s) (he : e.isGoroutine = true)
    (hs : cpuStep numCPU s e = some (s1, r)) : cpuIdle s1 ∧ r = none := by
  obtain ⟨hrun, hex⟩ := hidle
  cases e with
  | callStart c => simp [CpuEvent.isGoroutine] at he
  | callStop => simp [CpuEvent.isGoroutine] at he
  | stopReturn => simp [CpuEvent.isGoroutine] at he
  | taskRecord i =>
    simp only [cpuStep] at hs
    cases ht : s.tasks[i]? with
    | none => simp [ht] at hs
    | some t =>
      have := hex t (List.getElem?_mem ht)
      simp [ht, this] at hs
  | taskSpawn i =>
    simp only [cpuStep] at hs
    cases ht : s.tasks[i]? with
    | none => simp [ht] at hs
    | some t =>
      have := hex t (List.getElem?_mem ht)
      simp [ht, this] at hs
  | taskStop i =>
    simp only [cpuStep] at hs
    cases ht : s.tasks[i]? with
    | none => simp [ht] at hs
    | some t =>
      have := hex t (List.getElem?_mem ht)
      simp [ht, this] at hs
  | workerPoll i j =>
    simp only [cpuStep] at hs
    cases ht : s.tasks[i]? with
    | none => simp [ht] at hs
    | some t =>
      cases hw : t.workers[j]? with
      | none => simp [ht, hw] at hs
      | some w =>
        by_cases hpc : w.pc = .exited
        · simp [ht, hw, hpc] at hs
        · simp only [ht, hw, hpc, if_false, Option.some.injEq, Prod.mk.injEq] at hs
          obtain ⟨hs1, hr⟩ := hs
          refine ⟨⟨by rw [← hs1]; exact hrun, ?_⟩, hr.symm⟩
          intro t' ht'
          rw [← hs1] at ht'
          rcases List.mem_or_eq_of_mem_set ht' with h | h
          · exact hex t' h
          · rw [h]; exact hex t (List.getElem?_mem ht)

/-- A goroutine step after a winning `StartTaskWithCores(a)` keeps the flag on
and the recorded count at the clamped `a`. -/
theorem cpuStep_started (numCPU a : Int) (s : CpuState) (e : CpuEvent) (s1 : CpuState)
    (r : Option Bool) (hst : cpuStarted numCPU a s) (he : e.isGoroutine = true)
    (hs : cpuStep numCPU s e = some (s1, r)) : cpuStarted numCPU a s1 ∧ r = none := by
  obtain ⟨hrun, hch, hnum, htasks⟩ := hst
  cases e with
  | callStart c => simp [CpuEvent.isGoroutine] at he
  | callStop => simp [CpuEvent.isGoroutine] at he
  | stopReturn => simp [CpuEvent.isGoroutine] at he
  | taskRecord i =>
    simp only [cpuStep] at hs
    cases ht : s.tasks[i]? with
    | none => simp [ht] at hs
    | some t =>
      by_cases hpc : t.pc = .entry
      · simp only [ht, hpc, if_true, Option.some.injEq, Prod.mk.injEq] at hs
        obtain ⟨hs1, hr⟩ := hs
        have hcl : clampCoreCount numCPU t.coreCount = clampCoreCount numCPU a := by
          rcases htasks t (List.getElem?_mem ht) with h | h
          · rw [hpc] at h; cases h
          · exact h
        refine ⟨⟨?_, ?_, ?_, ?_⟩, hr.symm⟩
        · rw [← hs1]; exact hrun
        · rw [← hs1]; exact hch
        · rw [← hs1]; exact hcl
        · intro t2 ht2
          rw [← hs1] at ht2
          rcases List.mem_or_eq_of_mem_set ht2 with h | h
          · exact htasks t2 h
          · right; rw [h]; simp only [clampCoreCount_idem]; exact hcl
      · simp [ht, hpc] at hs
  | taskSpawn i =>
    simp only [cpuStep] at hs
    cases ht : s.tasks[i]? with
    | none => simp [ht] at hs
    | some t =>
      by_cases hpc : t.pc = .spawn
      · simp only [ht, hpc, if_true, Option.some.injEq, Prod.mk.injEq] at hs
        obtain ⟨hs1, hr⟩ := hs
        have hcl : clampCoreCount numCPU t.coreCount = clampCoreCount numCPU a := by
          rcases htasks t (List.getElem?_mem ht) with h | h
          · rw [hpc] at h; cases h
          · exact h
        refine ⟨⟨?_, ?_, ?_, ?_⟩, hr.symm⟩
        · rw [← hs1]; exact hrun
        · rw [← hs1]; exact hch
        · rw [← hs1]; exact hnum
        · intro t2 ht2
          rw [← hs1] at ht2
          rcases List.mem_or_eq_of_mem_set ht2 with h | h
          · exact htasks t2 h
          · right; rw [h]; exact hcl
      · simp [ht, hpc] at hs
  | taskStop i =>
    simp only [cpuStep] at hs
    cases ht : s.tasks[i]? with
    | none => simp [ht] at hs
    | some t => simp [ht, hch] at hs
  | workerPoll i j =>
    simp only [cpuStep] at hs
    cases ht : s.tasks[i]? with
    | none => simp [ht] at hs
    | some t =>
      cases hw : t.workers[j]? with
      | none => simp [ht, hw] at hs
      | some w =>
        by_cases hpc : w.pc = .exited
        · simp [ht, hw, hpc] at hs
        · simp only [ht, hw, hpc, if_false, Option.some.injEq, Prod.mk.injEq] at hs
          obtain ⟨hs1, hr⟩ := hs
          refine ⟨⟨?_, ?_, ?_, ?_⟩, hr.symm⟩
          · rw [← hs1]; exact hrun
          · rw [← hs1]; exact hch
          · rw [← hs1]; exact hnum
          · intro t2 ht2
            rw [← hs1] at ht2
            rcases List.mem_or_eq_of_mem_set ht2 with h | h
            · exact htasks t2 h
            · rw [h]; exact htasks t (List.getElem?_mem ht)

/-- C10: two `StartTaskWithCores` calls issued on an idle CPU controller, in
every interleaving with each other and with the steps of the goroutines: the
call that takes the mutex first returns `true`, the other returns `false`, and
from then on `GetCPUCoresUsed()` is the clamped core count of the first. -/
theorem concurrent_starts_one_winner (numCPU a b : Int) (s0 s : CpuState)
    (g0 g1 g2 : List CpuEvent) (rets : List Bool)
    (hidle : cpuIdle s0)
    (h0 : ∀ e ∈ g0, e.isGoroutine = true) (h1 : ∀ e ∈ g1, e.isGoroutine = true)
    (h2 : ∀ e ∈ g2, e.isGoroutine = true)
    (hrun : cpuRun numCPU s0
      (g0 ++ ([CpuEvent.callStart a] ++ (g1 ++ ([CpuEvent.callStart b] ++ g2)))) =
        some (s, rets)) :
    rets = [true, false] ∧ IsTaskRunning s = true ∧
    GetCPUCoresUsed s = (if a ≤ 0 then numCPU else min a numCPU) := by
  obtain ⟨sa, ra, qa, hga, hrest, hretsA⟩ := cpuRun_append numCPU _ _ _ _ _ hrun
  obtain ⟨hidleA, hra⟩ :=
    cpuRun_goroutines numCPU cpuIdle (cpuStep_idle numCPU) g0 s0 sa ra hidle h0 hga
  obtain ⟨sb, rb, qb, hgb, hrest, hretsB⟩ := cpuRun_append numCPU _ _ _ _ _ hrest
  obtain ⟨sc, rc, qc, hgc, hrest, hretsC⟩ := cpuRun_append numCPU _ _ _ _ _ hrest
  obtain ⟨sd, rd, qd, hgd, hrest, hretsD⟩ := cpuRun_append numCPU _ _ _ _ _ hrest
  -- the first call
  have hstartA : sb = (StartTaskWithCores numCPU a sa).2 ∧ rb = [true] := by
    simp [cpuRun, cpuStep, StartTaskWithCores, hidleA.1] at hgb
    exact ⟨by simp [StartTaskWithCores, hidleA.1, hgb.1], hgb.2.symm⟩
  have hstB : cpuStarted numCPU a sb := by
    rw [hstartA.1]
    refine ⟨by simp [StartTaskWithCores, hidleA.1], by simp [StartTaskWithCores, hidleA.1],
      ?_, ?_⟩
    · simp only [StartTaskWithCores, hidleA.1, clampCoreCount_eq]
      simp only [Bool.false_eq_true, if_false]
      split_ifs <;> omega
    · intro t ht
      simp only [StartTaskWithCores, hidleA.1, Bool.false_eq_true, if_false,
        List.mem_append, List.mem_singleton] at ht
      rcases ht with h | h
      · exact Or.inl (hidleA.2 t h)
      · right; rw [h]
  obtain ⟨hstC, hrc⟩ :=
    cpuRun_goroutines numCPU (cpuStarted numCPU a) (cpuStep_started numCPU a) g1 sb sc rc
      hstB h1 hgc
  -- the second call
  have hstartB : sd = sc ∧ rd = [false] := by
    simp [cpuRun, cpuStep, StartTaskWithCores, hstC.1] at hgd
    exact ⟨hgd.1.symm, hgd.2.symm⟩
  obtain ⟨hstE, hre⟩ :=
    cpuRun_goroutines numCPU (cpuStarted numCPU a) (cpuStep_started numCPU a) g2 sd s qd
      (hstartB.1 ▸ hstC) h2 hrest
  refine ⟨?_, hstE.1, ?_⟩
  · rw [hretsA, hra, hretsB, hstartA.2, hretsC, hrc, hretsD, hstartB.2, hre]
    rfl
  · rw [GetCPUCoresUsed, hstE.2.2.1, clampCoreCount_eq]

/-- C10 on a host with 4 cores from the initial state: `StartTaskWithCores(2)`
wins, its task stores its count, `StartTaskWithCores(3)` loses, the task starts
its workers; the recorded count is 2. -/
theorem concurrent_starts_one_winner_witness :
    cpuIdle cpuInit ∧
    cpuRun 4 cpuInit ([] ++ ([CpuEvent.callStart 2] ++ ([CpuEvent.taskRecord 0] ++
      ([CpuEvent.callStart 3] ++ [CpuEvent.taskSpawn 0])))) = some (cpuSample, [true, false]) ∧
    ([true, false] = [true, false] ∧ IsTaskRunning cpuSample = true ∧
      GetCPUCoresUsed cpuSample = (if (2 : Int) ≤ 0 then 4 else min 2 4)) :=
  ⟨by simp [cpuIdle, cpuInit], by decide,
    concurrent_starts_one_winner 4 2 3 cpuInit cpuSample [] [CpuEvent.taskRecord 0]
      [CpuEvent.taskSpawn 0] [true, false] (by simp [cpuIdle, cpuInit]) (by simp)
      (by simp [CpuEvent.isGoroutine]) (by simp [CpuEvent.isGoroutine]) (by decide)⟩

/-! ## What has happened when `StopTask` returns -/

/-- C9, as stated, fails: on a host with one core, after `StartTaskWithCores(1)`
the task starts its worker, the worker enters `performCPUIntensiveMath`,
`StopTask()` sends the stop signal, the task forwards it and returns, the wait
ends and `StopTask()` returns `true`, while the worker is still inside
`performCPUIntensiveMath`. -/
theorem stop_returns_before_worker_exits :
    (cpuRun 1 cpuInit
        [.callStart 1, .taskRecord 0, .taskSpawn 0, .workerPoll 0 0, .callStop, .taskStop 0,
          .stopReturn]).map
      (fun r => (r.2, r.1.tasks.map (fun t => (t.pc, t.workers.map (fun w => w.pc))))) =
    some ([true, true], [(TaskPc.exited, [WorkerPc.math])]) := by
  decide

/-- Replacing task `i` changes the number of live tasks by the difference
between the new and the old task. -/
theorem countP_set_task (l : List CpuTask) (i : Nat) (t t2 : CpuTask)
    (ht : l[i]? = some t) :
    (l.set i t2).countP taskLive + (if t.pc = TaskPc.exited then 0 else 1) =
      l.countP taskLive + (if t2.pc = TaskPc.exited then 0 else 1) := by
  obtain ⟨hi, hget⟩ := List.getElem?_eq_some.mp ht
  have h1 := List.countP_set taskLive l i t2 hi
  have h2 := List.boole_getElem_le_countP taskLive l i hi
  rw [hget] at h1 h2
  have e1 : (if taskLive t = true then 1 else 0) = (if t.pc = TaskPc.exited then 0 else 1) := by
    by_cases e : t.pc = TaskPc.exited <;> simp [taskLive, e]
  have e2 : (if taskLive t2 = true then 1 else 0) =
      (if t2.pc = TaskPc.exited then 0 else 1) := by
    by_cases e : t2.pc = TaskPc.exited <;> simp [taskLive, e]
  rw [e1] at h1 h2
  rw [e2] at h1
  split_ifs at h1 h2 ⊢ <;> omega

/-- Replacing a live task by a live task keeps the number of live tasks. -/
theorem countP_set_live (l : List CpuTask) (i : Nat) (t t2 : CpuTask)
    (ht : l[i]? = some t) (h1 : t.pc ≠ TaskPc.exited) (h2 : t2.pc ≠ TaskPc.exited) :
    (l.set i t2).countP taskLive = l.countP taskLive := by
  have h := countP_set_task l i t t2 ht
  rw [if_neg h1, if_neg h2] at h
  omega

/-- Replacing a live task by one that has returned lowers the number of live
tasks by one. -/
theorem countP_set_exit (l : List CpuTask) (i : Nat) (t t2 : CpuTask)
    (ht : l[i]? = some t) (h1 : t.pc ≠ TaskPc.exited) (h2 : t2.pc = TaskPc.exited) :
    (l.set i t2).countP taskLive + 1 = l.countP taskLive := by
  have h := countP_set_task l i t t2 ht
  rw [if_neg h1, if_pos h2] at h
  omega

/-- Replacing a task by one at the same position keeps the number of live tasks. -/
theorem countP_set_same (l : List CpuTask) (i : Nat) (t t2 : CpuTask)
    (ht : l[i]? = some t) (h : t2.pc = t.pc) :
    (l.set i t2).countP taskLive = l.countP taskLive := by
  have h0 := countP_set_task l i t t2 ht
  rw [h] at h0
  omega

/-- A worker whose stop channel is closed keeps a closed channel when it polls. -/
theorem workerPoll_closed (w : Worker) (h : w.closed = true) : (workerPoll w).closed = true := by
  unfold workerPoll
  cases hpc : w.pc <;> simp [h]

/-- A worker whose stop channel is closed has returned after two polls. -/
theorem workerPoll_twice_exited (w : Worker) (h : w.closed = true) :
    (workerPoll (workerPoll w)).pc = WorkerPc.exited := by
  unfold workerPoll
  cases hpc : w.pc <;> simp [h, hpc]

/-- Every enabled event keeps `cpuInv`. -/
theorem cpuStep_inv (numCPU : Int) (s : CpuState) (e : CpuEvent) (s1 : CpuState)
    (r : Option Bool) (hinv : cpuInv s) (hs : cpuStep numCPU s e = some (s1, r)) :
    cpuInv s1 := by
  obtain ⟨hwg, hcl⟩ := hinv
  cases e with
  | callStart c =>
    simp only [cpuStep, Option.some.injEq, Prod.mk.injEq] at hs
    obtain ⟨hs1, -⟩ := hs
    rw [← hs1]
    cases hrun : s.cpuTaskRunning with
    | true => simpa [StartTaskWithCores, hrun, cpuInv] using ⟨hwg, hcl⟩
    | false =>
      refine ⟨?_, ?_⟩
      · have h1 : List.countP taskLive
            [({ coreCount := c, pc := .entry, workers := [] } : CpuTask)] = 1 := rfl
        simp only [liveTasks] at hwg
        simp only [StartTaskWithCores, hrun, Bool.false_eq_true, if_false, liveTasks,
          List.countP_append, h1]
        omega
      · intro t ht
        simp only [StartTaskWithCores, hrun, Bool.false_eq_true, if_false,
          List.mem_append, List.mem_singleton] at ht
        rcases ht with h | h
        · exact hcl t h
        · rw [h]; intro hx; cases hx
  | callStop =>
    simp only [cpuStep, Option.some.injEq, Prod.mk.injEq] at hs
    obtain ⟨hs1, -⟩ := hs
    rw [← hs1]
    cases hrun : s.cpuTaskRunning <;>
      simpa [StopTask, hrun, cpuInv, liveTasks] using ⟨hwg, hcl⟩
  | stopReturn =>
    simp only [cpuStep] at hs
    split_ifs at hs with hen
    simp only [Option.some.injEq, Prod.mk.injEq] at hs
    obtain ⟨hs1, -⟩ := hs
    rw [← hs1]
    exact ⟨hwg, hcl⟩
  | taskRecord i =>
    simp only [cpuStep] at hs
    cases ht : s.tasks[i]? with
    | none => simp [ht] at hs
    | some t =>
      by_cases hpc : t.pc = .entry
      · simp only [ht, hpc, if_true, Option.some.injEq, Prod.mk.injEq] at hs
        obtain ⟨hs1, -⟩ := hs
        rw [← hs1]
        refine ⟨?_, ?_⟩
        · have h := countP_set_live s.tasks i t
            { t with coreCount := clampCoreCount numCPU t.coreCount, pc := .spawn } ht
            (by simp [hpc]) (by simp)
          simp only [liveTasks] at hwg
          simp only [taskRecord, liveTasks]
          omega
        · intro t2 ht2
          rcases List.mem_or_eq_of_mem_set ht2 with h | h
          · exact hcl t2 h
          · rw [h]; intro hx; cases hx
      · simp [ht, hpc] at hs
  | taskSpawn i =>
    simp only [cpuStep] at hs
    cases ht : s.tasks[i]? with
    | none => simp [ht] at hs
    | some t =>
      by_cases hpc : t.pc = .spawn
      · simp only [ht, hpc, if_true, Option.some.injEq, Prod.mk.injEq] at hs
        obtain ⟨hs1, -⟩ := hs
        rw [← hs1]
        refine ⟨?_, ?_⟩
        · have h := countP_set_live s.tasks i t
            { t with
              workers := (List.range t.coreCount.toNat).map
                fun _ => ({ stopChan := 0, closed := false, pc := .select } : Worker)
              pc := .loop } ht (by simp [hpc]) (by simp)
          simp only [liveTasks] at hwg
          simp only [taskSpawn, liveTasks]
          omega
        · intro t2 ht2
          rcases List.mem_or_eq_of_mem_set ht2 with h | h
          · exact hcl t2 h
          · rw [h]; intro hx; cases hx
      · simp [ht, hpc] at hs
  | taskStop i =>
    simp only [cpuStep] at hs
    cases ht : s.tasks[i]? with
    | none => simp [ht] at hs
    | some t =>
      by_cases hpc : t.pc = .loop ∧ 0 < s.cpuTaskChan
      · simp only [ht, hpc, and_self, if_true, Option.some.injEq, Prod.mk.injEq] at hs
        obtain ⟨hs1, -⟩ := hs
        rw [← hs1]
        refine ⟨?_, ?_⟩
        · have h := countP_set_exit s.tasks i t
            { t with workers := t.workers.map signalWorker, pc := .exited } ht
            (by simp [hpc.1]) rfl
          simp only [liveTasks] at hwg
          simp only [taskStop, liveTasks]
          omega
        · intro t2 ht2
          rcases List.mem_or_eq_of_mem_set ht2 with h | h
          · exact hcl t2 h
          · rw [h]
            intro _ w hw
            simp only [List.mem_map] at hw
            obtain ⟨w0, -, hw0⟩ := hw
            rw [← hw0]
            rfl
      · simp [ht, hpc] at hs
  | workerPoll i j =>
    simp only [cpuStep] at hs
    cases ht : s.tasks[i]? with
    | none => simp [ht] at hs
    | some t =>
      cases hw : t.workers[j]? with
      | none => simp [ht, hw] at hs
      | some w =>
        by_cases hpc : w.pc = .exited
        · simp [ht, hw, hpc] at hs
        · simp only [ht, hw, hpc, if_false, Option.some.injEq, Prod.mk.injEq] at hs
          obtain ⟨hs1, -⟩ := hs
          rw [← hs1]
          refine ⟨?_, ?_⟩
          · have h := countP_set_same s.tasks i t
              { t with workers := t.workers.set j (workerPoll w) } ht rfl
            simp only [liveTasks] at hwg
            simp only [liveTasks]
            omega
          · intro t2 ht2
            rcases List.mem_or_eq_of_mem_set ht2 with h | h
            · exact hcl t2 h
            · rw [h]
              intro hx w2 hw2
              have hall := hcl t (List.getElem?_mem ht) hx
              rcases List.mem_or_eq_of_mem_set hw2 with h2 | h2
              · exact hall w2 h2
              · rw [h2]
                exact workerPoll_closed w (hall w (List.getElem?_mem hw))

/-- Every state of an execution from a state with `cpuInv` has `cpuInv`. -/
theorem cpuRun_inv (numCPU : Int) :
    ∀ (tr : List CpuEvent) (s s2 : CpuState) (rets : List Bool),
      cpuInv s → cpuRun numCPU s tr = some (s2, rets) → cpuInv s2 := by
  intro tr
  induction tr with
  | nil =>
    intro s s2 rets hinv h
    simp only [cpuRun, Option.some.injEq, Prod.mk.injEq] at h
    exact h.1 ▸ hinv
  | cons e es ih =>
    intro s s2 rets hinv h
    simp only [cpuRun] at h
    cases hs : cpuStep numCPU s e with
    | none => simp [hs] at h
    | some p =>
      obtain ⟨s1, r⟩ := p
      simp only [hs] at h
      cases hrest : cpuRun numCPU s1 es with
      | none => simp [hrest] at h
      | some q =>
        obtain ⟨s3, rs⟩ := q
        simp only [hrest, Option.some.injEq, Prod.mk.injEq] at h
        exact h.1 ▸ ih s1 s3 rs (cpuStep_inv numCPU s e s1 r hinv hs) hrest

/-- C9, amended: in every execution from the initial state, when a `StopTask()`
call returns, it returns `true`, every `startCPUTask` goroutine has returned,
and every worker has had the stop signal sent and its stop channel closed, so
that it returns at the latest with its second check of that channel from then
on.  The workers themselves are not waited for. -/
theorem stop_return_workers_signalled (numCPU : Int) (tr : List CpuEvent)
    (s s2 : CpuState) (rets : List Bool) (r : Option Bool)
    (hrun : cpuRun numCPU cpuInit tr = some (s, rets))
    (hret : cpuStep numCPU s CpuEvent.stopReturn = some (s2, r)) :
    r = some true ∧
    ∀ t ∈ s2.tasks, t.pc = TaskPc.exited ∧
      ∀ w ∈ t.workers, w.closed = true ∧ (workerPoll (workerPoll w)).pc = WorkerPc.exited := by
  have hinit : cpuInv cpuInit := by
    refine ⟨by simp [liveTasks, cpuInit], ?_⟩
    intro t ht
    simp [cpuInit] at ht
  obtain ⟨hwg, hcl⟩ := cpuRun_inv numCPU tr cpuInit s rets hinit hrun
  simp only [cpuStep] at hret
  split_ifs at hret with hen
  simp only [Option.some.injEq, Prod.mk.injEq] at hret
  obtain ⟨hs2, hr⟩ := hret
  refine ⟨hr.symm, ?_⟩
  intro t ht
  rw [← hs2] at ht
  have hlive : liveTasks s = 0 := by omega
  have hex : t.pc = TaskPc.exited := by
    simp only [liveTasks, List.countP_eq_zero] at hlive
    have := hlive t ht
    simpa [taskLive] using this
  refine ⟨hex, ?_⟩
  intro w hw
  have hc := hcl t ht hex w hw
  exact ⟨hc, workerPoll_twice_exited w hc⟩

/-- The state `cpuStopping` is reached from the initial state. -/
theorem cpuStopping_reached :
    cpuRun 1 cpuInit
      [.callStart 1, .taskRecord 0, .taskSpawn 0, .workerPoll 0 0, .callStop, .taskStop 0] =
      some (cpuStopping, [true]) := by
  decide

/-- C9, amended, on a host with one core, at the return of `StopTask()` while
the worker is still inside `performCPUIntensiveMath`. -/
theorem stop_return_workers_signalled_witness :
    cpuRun 1 cpuInit
      [.callStart 1, .taskRecord 0, .taskSpawn 0, .workerPoll 0 0, .callStop, .taskStop 0] =
      some (cpuStopping, [true]) ∧
    cpuStep 1 cpuStopping CpuEvent.stopReturn =
      some ({ cpuStopping with stopWaiters := 0 }, some true) ∧
    (some true = some true ∧
      ∀ t ∈ CpuState.tasks { cpuStopping with stopWaiters := 0 }, t.pc = TaskPc.exited ∧
        ∀ w ∈ t.workers, w.closed = true ∧
          (workerPoll (workerPoll w)).pc = WorkerPc.exited) :=
  ⟨by decide, by decide,
    stop_return_workers_signalled 1
      [.callStart 1, .taskRecord 0, .taskSpawn 0, .workerPoll 0 0, .callStop, .taskStop 0]
      cpuStopping { cpuStopping with stopWaiters := 0 } [true] (some true)
      (by decide) (by decide)⟩

/-! ## The core count of the task and the core count recorded by `Start` -/

/-- C12: on a host with at least one core and an idle controller, the core
count that `startCPUTask` computes from its argument (lines 76–84) is the value
`StartTaskWithCores` has recorded for the same argument; the store of line 88
leaves `GetCPUCoresUsed()` as it was; and after the task has started its
workers their number is `GetCPUCoresUsed()`. -/
theorem task_core_count_eq_recorded (numCPU cores : Int) (s : CpuState)
    (havail : 1 ≤ numCPU) (hidle : s.cpuTaskRunning = false) :
    clampCoreCount numCPU cores = GetCPUCoresUsed (StartTaskWithCores numCPU cores s).2 ∧
    GetCPUCoresUsed (taskRecord numCPU (StartTaskWithCores numCPU cores s).2 s.tasks.length
        { coreCount := cores, pc := .entry, workers := [] }) =
      GetCPUCoresUsed (StartTaskWithCores numCPU cores s).2 ∧
    ∃ s2 t, cpuRun numCPU s [CpuEvent.callStart cores, CpuEvent.taskRecord s.tasks.length,
        CpuEvent.taskSpawn s.tasks.length] = some (s2, [true]) ∧
      s2.tasks[s.tasks.length]? = some t ∧
      t.coreCount = GetCPUCoresUsed s2 ∧
      (t.workers.length : Int) = GetCPUCoresUsed s2 ∧
      GetCPUCoresUsed s2 = GetCPUCoresUsed (StartTaskWithCores numCPU cores s).2 := by
  have hstart : StartTaskWithCores numCPU cores s =
      (true, { s with
        cpuTaskChan := 0
        numCoresUsed := clampCoreCount numCPU cores
        cpuTaskRunning := true
        cpuTaskWg := s.cpuTaskWg + 1
        tasks := s.tasks ++ [{ coreCount := cores, pc := .entry, workers := [] }] }) := by
    simp only [StartTaskWithCores, hidle, clampCoreCount]
    by_cases h0 : cores ≤ 0
    · simp [h0]
    · simp [h0]
  have hpos : 0 ≤ clampCoreCount numCPU cores := by
    rw [clampCoreCount_eq]
    split_ifs <;> omega
  refine ⟨by simp [hstart, GetCPUCoresUsed], by simp [hstart, GetCPUCoresUsed, taskRecord], ?_⟩
  simp [cpuRun, cpuStep, hstart, taskRecord, taskSpawn, GetCPUCoresUsed, clampCoreCount_idem,
    Int.toNat_of_nonneg hpos]

/-- C12 at `cores = 0` on a host with 4 cores, from the initial state: the task
works with 4 cores, the count `StartTaskWithCores(0)` recorded. -/
theorem task_core_count_eq_recorded_witness :
    (1 : Int) ≤ 4 ∧ cpuInit.cpuTaskRunning = false ∧
    clampCoreCount 4 0 = GetCPUCoresUsed (StartTaskWithCores 4 0 cpuInit).2 ∧
    GetCPUCoresUsed (taskRecord 4 (StartTaskWithCores 4 0 cpuInit).2 cpuInit.tasks.length
        { coreCount := 0, pc := .entry, workers := [] }) =
      GetCPUCoresUsed (StartTaskWithCores 4 0 cpuInit).2 ∧
    ∃ s2 t, cpuRun 4 cpuInit [CpuEvent.callStart 0, CpuEvent.taskRecord cpuInit.tasks.length,
        CpuEvent.taskSpawn cpuInit.tasks.length] = some (s2, [true]) ∧
      s2.tasks[cpuInit.tasks.length]? = some t ∧
      t.coreCount = GetCPUCoresUsed s2 ∧
      (t.workers.length : Int) = GetCPUCoresUsed s2 ∧
      GetCPUCoresUsed s2 = GetCPUCoresUsed (StartTaskWithCores 4 0 cpuInit).2 :=
  ⟨by decide, rfl, task_core_count_eq_recorded 4 0 cpuInit (by decide) rfl⟩

/-! ## The activation handlers -/

/-- C11: a `POST` whose path is `/cpu/activate/` followed by `abc` or by `-5`
does not match `cpuActivatePattern`, so `ActivateHandler` keeps `cores = 0`,
calls `StartTaskWithCores(0)` and writes 200, with the task running on all 4
cores; and `ActivateMemoryHandler` does the same for `/memory/activate/`
followed by `abc` or by `-5`, with `StartMemoryTaskWithLimit(0)` and the limit
1024. -/
theorem activate_unparsable_starts :
    (ActivateHandler 4 { method := "POST", path := "/cpu/activate/abc" } cpuInit).1 =
      { status := 200, started := some 0 } ∧
    IsTaskRunning (ActivateHandler 4 { method := "POST", path := "/cpu/activate/abc" }
      cpuInit).2 = true ∧
    GetCPUCoresUsed (ActivateHandler 4 { method := "POST", path := "/cpu/activate/abc" }
      cpuInit).2 = 4 ∧
    (ActivateHandler 4 { method := "POST", path := "/cpu/activate/-5" } cpuInit).1 =
      { status := 200, started := some 0 } ∧
    (ActivateMemoryHandler { method := "POST", path := "/memory/activate/abc" } memInit).1 =
      { status := 200, started := some 0 } ∧
    IsMemoryTaskRunning (ActivateMemoryHandler
      { method := "POST", path := "/memory/activate/abc" } memInit).2 = true ∧
    GetMaxMemoryMB (ActivateMemoryHandler
      { method := "POST", path := "/memory/activate/abc" } memInit).2 = 1024 ∧
    (ActivateMemoryHandler { method := "POST", path := "/memory/activate/-5" } memInit).1 =
      { status := 200, started := some 0 } := by
  decide

/-- A list that begins with `pre` loses exactly `pre`. -/
theorem dropLeading_append (pre r : List Char) : dropLeading pre (pre ++ r) = some r := by
  induction pre with
  | nil => cases r <;> rfl
  | cons a pre ih => simp [dropLeading, ih]

/-- What `FindStringSubmatch` returns on the literal text of the pattern
followed by `/` and `p`: a match with the group `p` when `p` is a non-empty
string of digits, and no match otherwise. -/
theorem findSubmatch_slash (pat p : List Char) :
    FindStringSubmatch pat (String.mk (pat ++ '/' :: p)) =
      if p ≠ [] ∧ p.all Char.isDigit = true then
        [String.mk (pat ++ '/' :: p), String.mk p]
      else [] := by
  have hne : pat ++ '/' :: p ≠ pat := by
    intro h
    have := congrArg List.length h
    simp at this
  have hdrop : dropLeading (pat ++ ['/']) (pat ++ '/' :: p) = some p := by
    have := dropLeading_append (pat ++ ['/']) p
    simpa using this
  simp only [FindStringSubmatch, String.toList, hne, if_false, hdrop]

/-- A digit is not a sign. -/
theorem isDigit_not_sign (c : Char) (h : c.isDigit = true) : c ≠ '+' ∧ c ≠ '-' := by
  constructor <;> intro hc <;> rw [hc] at h <;> exact absurd h (by decide)

/-- On a non-empty string of digits `Atoi` returns the number written, unless
the number is above the largest `int`. -/
theorem Atoi_digits (ds : List Char) (hne : ds ≠ []) (hd : ds.all Char.isDigit = true) :
    Atoi (String.mk ds) =
      if decimalValue ds ≤ 2 ^ 63 - 1 then some (decimalValue ds : Int) else none := by
  cases ds with
  | nil => exact absurd rfl hne
  | cons c r =>
    have hc : c.isDigit = true := by
      simp only [List.all_cons, Bool.and_eq_true] at hd
      exact hd.1
    obtain ⟨h1, h2⟩ := isDigit_not_sign c hc
    simp [Atoi, String.toList, h1, h2, hd]

/-- What `ActivateHandler` does with a `POST` whose path is `/cpu/activate/`
followed by `p`.  When `p` is a non-empty string of digits it writes 400 and
calls nothing if the number is 0 or above the largest `int`, and calls
`StartTaskWithCores` with the number otherwise.  For every other `p` it calls
`StartTaskWithCores(0)`.  After a call it writes 200 or 409. -/
theorem ActivateHandler_slash (numCPU : Int) (p : List Char) (s : CpuState) :
    ActivateHandler numCPU
        { method := "POST", path := String.mk (cpuActivatePattern ++ '/' :: p) } s =
      if p ≠ [] ∧ p.all Char.isDigit = true then
        if 0 < decimalValue p ∧ decimalValue p ≤ 2 ^ 63 - 1 then
          ({ status := if (StartTaskWithCores numCPU (decimalValue p) s).1 then 200 else 409,
             started := some (decimalValue p : Int) },
            (StartTaskWithCores numCPU (decimalValue p) s).2)
        else ({ status := 400, started := none }, s)
      else
        ({ status := if (StartTaskWithCores numCPU 0 s).1 then 200 else 409,
           started := some 0 },
          (StartTaskWithCores numCPU 0 s).2) := by
  by_cases hp : p ≠ [] ∧ p.all Char.isDigit = true
  · have hs : String.mk p ≠ "" := by
      intro h
      exact hp.1 (congrArg String.data h)
    by_cases hr : decimalValue p ≤ 9223372036854775807
    · by_cases h0 : 0 < decimalValue p
      · have h0i : ¬ ((decimalValue p : Int) ≤ 0) := by omega
        cases hres : (StartTaskWithCores numCPU (decimalValue p) s).1 <;>
          simp [ActivateHandler, findSubmatch_slash, hp, hs, Atoi_digits p hp.1 hp.2, hr, h0,
            h0i, hres]
      · have h0i : (decimalValue p : Int) ≤ 0 := by omega
        simp [ActivateHandler, findSubmatch_slash, hp, hs, Atoi_digits p hp.1 hp.2, hr, h0, h0i]
    · simp [ActivateHandler, findSubmatch_slash, hp, hs, Atoi_digits p hp.1 hp.2, hr]
  · have hf := findSubmatch_slash cpuActivatePattern p
    rw [if_neg hp] at hf
    rw [if_neg hp]
    cases hres : (StartTaskWithCores numCPU 0 s).1 <;> simp [ActivateHandler, hf, hres]

/-- What `ActivateMemoryHandler` does with a `POST` whose path is
`/memory/activate/` followed by `p`: as `ActivateHandler`, with
`StartMemoryTaskWithLimit` for `StartTaskWithCores`. -/
theorem ActivateMemoryHandler_slash (p : List Char) (s : MemState) :
    ActivateMemoryHandler
        { method := "POST", path := String.mk (memoryActivatePattern ++ '/' :: p) } s =
      if p ≠ [] ∧ p.all Char.isDigit = true then
        if 0 < decimalValue p ∧ decimalValue p ≤ 2 ^ 63 - 1 then
          ({ status := if (StartMemoryTaskWithLimit (decimalValue p) s).1 then 200 else 409,
             started := some (decimalValue p : Int) },
            (StartMemoryTaskWithLimit (decimalValue p) s).2)
        else ({ status := 400, started := none }, s)
      else
        ({ status := if (StartMemoryTaskWithLimit 0 s).1 then 200 else 409,
           started := some 0 },
          (StartMemoryTaskWithLimit 0 s).2) := by
  by_cases hp : p ≠ [] ∧ p.all Char.isDigit = true
  · have hs : String.mk p ≠ "" := by
      intro h
      exact hp.1 (congrArg String.data h)
    by_cases hr : decimalValue p ≤ 9223372036854775807
    · by_cases h0 : 0 < decimalValue p
      · have h0i : ¬ ((decimalValue p : Int) ≤ 0) := by omega
        cases hres : (StartMemoryTaskWithLimit (decimalValue p) s).1 <;>
          simp [ActivateMemoryHandler, findSubmatch_slash, hp, hs, Atoi_digits p hp.1 hp.2, hr,
            h0, h0i, hres]
      · have h0i : (decimalValue p : Int) ≤ 0 := by omega
        simp [ActivateMemoryHandler, findSubmatch_slash, hp, hs, Atoi_digits p hp.1 hp.2, hr,
          h0, h0i]
    · simp [ActivateMemoryHandler, findSubmatch_slash, hp, hs, Atoi_digits p hp.1 hp.2, hr]
  · have hf := findSubmatch_slash memoryActivatePattern p
    rw [if_neg hp] at hf
    rw [if_neg hp]
    cases hres : (StartMemoryTaskWithLimit 0 s).1 <;> simp [ActivateMemoryHandler, hf, hres]

end Benchmark
